import Mathlib

/-!
Shallow embedding of the methcla realtime audio engine core
(src/engine/src/Methcla/Audio/Engine.cpp, src/engine/src/Mescaline/Audio/Synth.hpp)
with proofs about its bus mix/replace discipline, scheduler ordering,
request dispatch and epoch invariants.

Samples (`sample_t`, single precision floats in the source) are modelled as
rationals: every concrete value appearing in the claims is representable, and
the accumulate loop of `AudioOutputConnection::write` performs the same
left-to-right additions as the source, so the mix law is the statement about
the very same operation sequence.  Times (`Methcla_Time`, double seconds) are
modelled as rationals as well.
-/

abbrev sample_t := ℚ

abbrev Methcla_Time := ℚ

namespace Mescaline

/-- `enum InputConnectionType` (Mescaline/Audio/Synth.hpp lines 14-18). -/
inductive InputConnectionType where
  | kIn
  | kInFeedback
deriving DecidableEq, Repr

/-- `enum OutputConnectionType` (Mescaline/Audio/Synth.hpp lines 20-24). -/
inductive OutputConnectionType where
  | kOut
  | kReplaceOut
deriving DecidableEq, Repr

/-- An audio bus: a sample buffer tagged by the epoch of its last write.
`AudioBus.hpp` itself is not among the sources; the fields are exactly those
the engine code uses: `data()`, `epoch()`, `setEpoch()`.  The reader/writer
lock degenerates to a no-op in the single-threaded audio callback and is not
modelled. -/
structure AudioBus where
  epoch : Nat
  data : List sample_t
deriving DecidableEq, Repr

/-- `memcpy(dst, src, numFrames * sizeof(sample_t))`: the first `n` samples of
`dst` are replaced by those of `src`; samples beyond `n` keep their values. -/
def copyFrames (n : Nat) (src dst : List sample_t) : List sample_t :=
  src.take n ++ dst.drop n

/-- The accumulate loop `for (i=0; i < numFrames; i++) dst[i] += src[i];`. -/
def mixFrames (n : Nat) (src dst : List sample_t) : List sample_t :=
  (List.zipWith (fun d s => d + s) (dst.take n) (src.take n)) ++ dst.drop n

/-- `memset(dst, 0, numFrames * sizeof(sample_t))` into a fresh buffer. -/
def silence (n : Nat) : List sample_t := List.replicate n 0

/-- The body of `AudioOutputConnection::write` acting on the addressed bus
(Mescaline/Audio/Synth.hpp lines 114-124): accumulate when the bus epoch
equals the current environment epoch, otherwise copy and stamp the bus with
the current epoch.  Note that the connection type is not consulted. -/
def AudioBus.writeRule (envEpoch : Nat) (numFrames : Nat) (src : List sample_t)
    (bus : AudioBus) : AudioBus :=
  if bus.epoch = envEpoch then
    { bus with data := mixFrames numFrames src bus.data }
  else
    { epoch := envEpoch, data := copyFrames numFrames src bus.data }

/-- `class AudioInputConnection` state: port index, mapped bus
(`ResourceId`, falsy when unset, hence an `Option`) and connection type. -/
structure AudioInputConnection where
  index : Nat
  busId : Option Nat
  type : InputConnectionType
deriving DecidableEq, Repr

/-- `class AudioOutputConnection` state (offset/buffer scratch pointers are
not observable through `write` and are omitted). -/
structure AudioOutputConnection where
  index : Nat
  busId : Option Nat
  type : OutputConnectionType
deriving DecidableEq, Repr

/-- `AudioInputConnection::read` (Mescaline/Audio/Synth.hpp lines 66-79):
copy the bus data when the bus was written this epoch, silence otherwise;
silence when no bus is mapped.  The environment is represented by its bus
array and current epoch. -/
def AudioInputConnection.read (conn : AudioInputConnection) (envEpoch : Nat)
    (buses : List AudioBus) (numFrames : Nat) : List sample_t :=
  match conn.busId with
  | some b =>
      let bus := buses.getD b ⟨0, []⟩
      if bus.epoch = envEpoch then bus.data.take numFrames
      else silence numFrames
  | none => silence numFrames

/-- `AudioOutputConnection::write` (Mescaline/Audio/Synth.hpp lines 108-126):
when a bus is mapped, apply the accumulate-or-replace rule to it; otherwise
discard the output. -/
def AudioOutputConnection.write (conn : AudioOutputConnection) (envEpoch : Nat)
    (buses : List AudioBus) (numFrames : Nat) (src : List sample_t) : List AudioBus :=
  match conn.busId with
  | some b => buses.set b (AudioBus.writeRule envEpoch numFrames src (buses.getD b ⟨0, []⟩))
  | none => buses

/-- Fold a block's worth of output-connection writes (each synth output in
turn) over the bus array. -/
def writeAll (envEpoch : Nat) (numFrames : Nat)
    (ws : List (AudioOutputConnection × List sample_t))
    (buses : List AudioBus) : List AudioBus :=
  ws.foldl (fun bs p => p.1.write envEpoch bs numFrames p.2) buses

/-- `env.audioBus(busId)`: index into the pre-allocated bus array. -/
def audioBus (buses : List AudioBus) (b : Nat) : AudioBus :=
  buses.getD b ⟨0, []⟩

lemma getD_take_lt {l : List sample_t} {n i : Nat} (h : i < n) :
    (l.take n).getD i 0 = l.getD i 0 := by
  simp [List.getD_eq_getElem?_getD, List.getElem?_take, h]

lemma length_copyFrames {n : Nat} {src dst : List sample_t}
    (hs : n ≤ src.length) (hd : n ≤ dst.length) :
    (copyFrames n src dst).length = dst.length := by
  simp [copyFrames, List.length_take, List.length_drop]
  omega

lemma length_mixFrames {n : Nat} {src dst : List sample_t}
    (hs : n ≤ src.length) (hd : n ≤ dst.length) :
    (mixFrames n src dst).length = dst.length := by
  simp [mixFrames, List.length_take, List.length_drop, List.length_zipWith]
  omega

lemma getD_copyFrames {n i : Nat} {src dst : List sample_t}
    (hi : i < n) (hs : n ≤ src.length) :
    (copyFrames n src dst).getD i 0 = src.getD i 0 := by
  have hlen : i < (src.take n).length := by
    simp [List.length_take]; omega
  simp only [copyFrames, List.getD_eq_getElem?_getD, List.getElem?_append, hlen, if_pos]
  rw [← List.getD_eq_getElem?_getD, ← List.getD_eq_getElem?_getD]
  exact getD_take_lt hi

lemma getD_mixFrames {n i : Nat} {src dst : List sample_t}
    (hi : i < n) (hs : n ≤ src.length) (hd : n ≤ dst.length) :
    (mixFrames n src dst).getD i 0 = dst.getD i 0 + src.getD i 0 := by
  have hlen : i < (List.zipWith (fun d s => d + s) (dst.take n) (src.take n)).length := by
    simp [List.length_zipWith, List.length_take]; omega
  have hdt : i < (dst.take n).length := by simp [List.length_take]; omega
  have hst : i < (src.take n).length := by simp [List.length_take]; omega
  simp only [mixFrames, List.getD_eq_getElem?_getD, List.getElem?_append, hlen, if_pos]
  rw [List.getElem?_zipWith, List.getElem?_eq_getElem hdt, List.getElem?_eq_getElem hst]
  simp only [Option.map_some, Option.some_bind, Option.getD_some]
  rw [← List.getD_eq_getElem (dst.take n) 0 hdt, ← List.getD_eq_getElem (src.take n) 0 hst,
    getD_take_lt hi, getD_take_lt hi]
  simp [List.getD_eq_getElem?_getD]

lemma audioBus_set_self {buses : List AudioBus} {b : Nat} (x : AudioBus)
    (h : b < buses.length) :
    audioBus (buses.set b x) b = x := by
  simp [audioBus, List.getD_eq_getElem?_getD, List.getElem?_set_self, h]

/-- Writing through an output connection mapped to bus `b` updates exactly
that bus via the accumulate-or-replace rule. -/
lemma write_mapped (idx : Nat) (ty : OutputConnectionType) (e n b : Nat)
    (buses : List AudioBus) (src : List sample_t) :
    AudioOutputConnection.write ⟨idx, some b, ty⟩ e buses n src =
      buses.set b (AudioBus.writeRule e n src (audioBus buses b)) := rfl

/-- Accumulating writes: folding same-bus writes over a bus already written
this epoch adds the sources sample-wise, keeps the epoch and the length. -/
lemma writeAll_written (e n b : Nat) :
    ∀ (ws : List (AudioOutputConnection × List sample_t)) (buses : List AudioBus),
      (∀ p ∈ ws, p.1.busId = some b ∧ n ≤ p.2.length) →
      b < buses.length →
      (audioBus buses b).epoch = e →
      n ≤ (audioBus buses b).data.length →
      (writeAll e n ws buses).length = buses.length ∧
      (audioBus (writeAll e n ws buses) b).epoch = e ∧
      (audioBus (writeAll e n ws buses) b).data.length = (audioBus buses b).data.length ∧
      ∀ i, i < n →
        (audioBus (writeAll e n ws buses) b).data.getD i 0 =
          (audioBus buses b).data.getD i 0 + ((ws.map (fun p => p.2.getD i 0)).sum) := by
  intro ws
  induction ws with
  | nil =>
      intro buses _ hb he hlen
      refine ⟨rfl, he, rfl, ?_⟩
      intro i _
      simp [writeAll]
  | cons p rest ih =>
      intro buses hws hb he hlen
      obtain ⟨hpbus, hplen⟩ := hws p (List.mem_cons_self p rest)
      have hrest : ∀ q ∈ rest, q.1.busId = some b ∧ n ≤ q.2.length := by
        intro q hq; exact hws q (List.mem_cons_of_mem p hq)
      -- the single write at the head of the fold
      have hw : p.1.write e buses n p.2 =
          buses.set b (AudioBus.writeRule e n p.2 (audioBus buses b)) := by
        show (match p.1.busId with
          | some c => buses.set c (AudioBus.writeRule e n p.2 (buses.getD c ⟨0, []⟩))
          | none => buses) = _
        rw [hpbus]
        rfl
      have hrule : AudioBus.writeRule e n p.2 (audioBus buses b) =
          { audioBus buses b with data := mixFrames n p.2 (audioBus buses b).data } := by
        simp [AudioBus.writeRule, he]
      have hfold : writeAll e n (p :: rest) buses =
          writeAll e n rest (buses.set b { audioBus buses b with
            data := mixFrames n p.2 (audioBus buses b).data }) := by
        simp only [writeAll, List.foldl_cons]
        rw [show (p.1.write e buses n p.2) = _ from hw, hrule]
      set buses1 := buses.set b { audioBus buses b with
        data := mixFrames n p.2 (audioBus buses b).data } with hb1
      have hlen1 : buses1.length = buses.length := by simp [hb1]
      have hbus1 : audioBus buses1 b = { audioBus buses b with
          data := mixFrames n p.2 (audioBus buses b).data } :=
        audioBus_set_self _ hb
      have hdata1 : (audioBus buses1 b).data.length = (audioBus buses b).data.length := by
        rw [hbus1]
        exact length_mixFrames hplen hlen
      have ihr := ih buses1 hrest (by omega) (by rw [hbus1]; exact he) (by omega)
      obtain ⟨ihlen, ihep, ihdl, ihget⟩ := ihr
      rw [hfold]
      refine ⟨by omega, ihep, by omega, ?_⟩
      intro i hi
      rw [ihget i hi, hbus1]
      show (mixFrames n p.2 (audioBus buses b).data).getD i 0 + _ = _
      rw [getD_mixFrames hi hplen hlen]
      simp only [List.map_cons, List.sum_cons]
      ring

/-- C1 (claim theorem): `AudioOutputConnection::write` accumulates into the
bus when `bus.epoch == env.epoch` and otherwise copies the source and stamps
the bus epoch; consequently, when `N` synth outputs write `s1…sN` to the same
previously-unwritten bus within one block, a subsequent same-block read of
that bus yields the sample-wise sum `s1+s2+…+sN`. -/
theorem write_mix_law (e n b : Nat) (buses : List AudioBus)
    (ws : List (AudioOutputConnection × List sample_t))
    (inConn : AudioInputConnection)
    (hin : inConn.busId = some b)
    (hb : b < buses.length)
    (hfresh : (audioBus buses b).epoch ≠ e)
    (hlen : n ≤ (audioBus buses b).data.length)
    (hws : ∀ p ∈ ws, p.1.busId = some b ∧ n ≤ p.2.length) :
    (∀ (bus : AudioBus) (src : List sample_t), bus.epoch = e →
        AudioBus.writeRule e n src bus = { bus with data := mixFrames n src bus.data }) ∧
    (∀ (bus : AudioBus) (src : List sample_t), bus.epoch ≠ e →
        AudioBus.writeRule e n src bus = ⟨e, copyFrames n src bus.data⟩) ∧
    (∀ i, i < n →
      (inConn.read e (writeAll e n ws buses) n).getD i 0 =
        ((ws.map (fun p => p.2.getD i 0)).sum)) := by
  refine ⟨?_, ?_, ?_⟩
  · intro bus src hbe; simp [AudioBus.writeRule, hbe]
  · intro bus src hbe; simp [AudioBus.writeRule, hbe]
  · intro i hi
    match ws, hws with
    | [], _ =>
        -- no writer: the bus epoch still differs, the read is silence, the sum is empty
        have : inConn.read e (writeAll e n [] buses) n = silence n := by
          simp only [writeAll, List.foldl_nil, AudioInputConnection.read, hin]
          simp only [show buses.getD b ⟨0, []⟩ = audioBus buses b from rfl, if_neg hfresh]
        rw [this]
        simp [silence, List.getD_eq_getElem?_getD, List.getElem?_replicate, hi]
    | p :: rest, hws =>
        obtain ⟨hpbus, hplen⟩ := hws p (List.mem_cons_self p rest)
        have hrest : ∀ q ∈ rest, q.1.busId = some b ∧ n ≤ q.2.length := by
          intro q hq; exact hws q (List.mem_cons_of_mem p hq)
        -- the first write copies and stamps the epoch
        have hw : p.1.write e buses n p.2 =
            buses.set b (AudioBus.writeRule e n p.2 (audioBus buses b)) := by
          show (match p.1.busId with
            | some c => buses.set c (AudioBus.writeRule e n p.2 (buses.getD c ⟨0, []⟩))
            | none => buses) = _
          rw [hpbus]; rfl
        have hrule : AudioBus.writeRule e n p.2 (audioBus buses b) =
            ⟨e, copyFrames n p.2 (audioBus buses b).data⟩ := by
          simp [AudioBus.writeRule, hfresh]
        have hfold : writeAll e n (p :: rest) buses =
            writeAll e n rest (buses.set b ⟨e, copyFrames n p.2 (audioBus buses b).data⟩) := by
          simp only [writeAll, List.foldl_cons]
          rw [show (p.1.write e buses n p.2) = _ from hw, hrule]
        set buses1 := buses.set b (⟨e, copyFrames n p.2 (audioBus buses b).data⟩ : AudioBus)
          with hb1
        have hbus1 : audioBus buses1 b = ⟨e, copyFrames n p.2 (audioBus buses b).data⟩ :=
          audioBus_set_self _ hb
        have hlen1 : (audioBus buses1 b).data.length = (audioBus buses b).data.length := by
          rw [hbus1]; exact length_copyFrames hplen hlen
        have hwr := writeAll_written e n b rest buses1 hrest
          (by simp [hb1]; omega) (by rw [hbus1]) (by omega)
        obtain ⟨_, hep, _, hget⟩ := hwr
        rw [hfold]
        have hread : inConn.read e (writeAll e n rest buses1) n =
            (audioBus (writeAll e n rest buses1) b).data.take n := by
          simp only [AudioInputConnection.read, hin]
          simp only [show (writeAll e n rest buses1).getD b ⟨0, []⟩ =
            audioBus (writeAll e n rest buses1) b from rfl, if_pos hep]
        rw [hread, getD_take_lt hi, hget i hi, hbus1]
        show (copyFrames n p.2 (audioBus buses b).data).getD i 0 + _ = _
        rw [getD_copyFrames hi hplen]
        simp only [List.map_cons, List.sum_cons]

/-- C1 witness: two outputs write `[2]` and `[3]` to the fresh bus 0; the
same-block read sees `2 + 3`. -/
theorem write_mix_law_witness :
    (AudioInputConnection.read ⟨0, some 0, .kIn⟩ 5
        (writeAll 5 1 [(⟨0, some 0, .kOut⟩, [2]), (⟨1, some 0, .kOut⟩, [3])]
          [⟨0, [0]⟩]) 1).getD 0 0 =
      ((([(⟨0, some 0, .kOut⟩, [2]), (⟨1, some 0, .kOut⟩, [3])] :
          List (AudioOutputConnection × List sample_t)).map (fun p => p.2.getD 0 0)).sum) := by
  exact (write_mix_law 5 1 0 [⟨0, [0]⟩]
    [(⟨0, some 0, .kOut⟩, [2]), (⟨1, some 0, .kOut⟩, [3])]
    ⟨0, some 0, .kIn⟩ rfl (by decide) (by decide) (by decide)
    (by decide)).2.2 0 (by decide)

/-- C5 counterexample: bus 0 already carries `[1, 2]` written this block
(epoch 5 = env epoch).  A `kReplaceOut` connection writes `[10, 20]`.  The
claim says a subsequent read sees only `[10, 20]`; the code accumulates, so
the read sees `[11, 22]`. -/
theorem replaceOut_accumulates_cex :
    AudioInputConnection.read ⟨0, some 0, .kIn⟩ 5
        (AudioOutputConnection.write ⟨0, some 0, .kReplaceOut⟩ 5 [⟨5, [1, 2]⟩] 2 [10, 20]) 2 =
      [11, 22] ∧
    AudioInputConnection.read ⟨0, some 0, .kIn⟩ 5
        (AudioOutputConnection.write ⟨0, some 0, .kReplaceOut⟩ 5 [⟨5, [1, 2]⟩] 2 [10, 20]) 2 ≠
      [10, 20] := by
  constructor
  · norm_num [AudioInputConnection.read, AudioOutputConnection.write, AudioBus.writeRule,
      mixFrames, audioBus]
  · norm_num [AudioInputConnection.read, AudioOutputConnection.write, AudioBus.writeRule,
      mixFrames, audioBus]

/-- C5 (amended claim theorem): `AudioOutputConnection::write` never consults
the connection type; a `kReplaceOut` write behaves exactly like `kOut`, so a
write to a bus already written this block accumulates and prior same-block
accumulation is preserved, not erased. -/
theorem write_ignores_output_connection_type :
    (∀ (idx1 idx2 : Nat) (bid : Option Nat) (t1 t2 : OutputConnectionType)
        (e : Nat) (buses : List AudioBus) (n : Nat) (src : List sample_t),
      AudioOutputConnection.write ⟨idx1, bid, t1⟩ e buses n src =
        AudioOutputConnection.write ⟨idx2, bid, t2⟩ e buses n src) ∧
    (∀ (e n b i idx : Nat) (buses : List AudioBus) (src : List sample_t),
      b < buses.length →
      (audioBus buses b).epoch = e →
      n ≤ src.length →
      n ≤ (audioBus buses b).data.length →
      i < n →
      (audioBus (AudioOutputConnection.write ⟨idx, some b, .kReplaceOut⟩ e buses n src) b).data.getD i 0 =
        (audioBus buses b).data.getD i 0 + src.getD i 0) := by
  constructor
  · intro idx1 idx2 bid t1 t2 e buses n src
    cases bid <;> rfl
  · intro e n b i idx buses src hb he hs hd hi
    rw [write_mapped, audioBus_set_self _ hb]
    simp only [AudioBus.writeRule, he, if_pos]
    exact getD_mixFrames hi hs hd

/-- C5 witness for the amended theorem. -/
theorem write_ignores_output_connection_type_witness :
    (audioBus (AudioOutputConnection.write ⟨0, some 0, .kReplaceOut⟩ 5 [⟨5, [1]⟩] 1 [10]) 0).data.getD 0 0 =
      (audioBus [(⟨5, [1]⟩ : AudioBus)] 0).data.getD 0 0 + ([(10 : sample_t)]).getD 0 0 := by
  exact write_ignores_output_connection_type.2 5 1 0 0 0 [⟨5, [1]⟩] [10]
    (by decide) (by decide) (by decide) (by decide) (by decide)

/-- C6 counterexample: bus 0 was written in the previous block (bus epoch 4,
environment epoch 5) with data `[7]`.  The claim says an `kInFeedback` input
reads the previous block's data `[7]`; the code reads silence `[0]`. -/
theorem inFeedback_silence_cex :
    AudioInputConnection.read ⟨0, some 0, .kInFeedback⟩ 5 [⟨4, [7]⟩] 1 = [0] ∧
    AudioInputConnection.read ⟨0, some 0, .kInFeedback⟩ 5 [⟨4, [7]⟩] 1 ≠ [7] := by
  constructor
  · norm_num [AudioInputConnection.read, silence]
  · norm_num [AudioInputConnection.read, silence]

/-- C6 (amended claim theorem): `AudioInputConnection::read` never consults
the connection type; a `kInFeedback` input reads exactly like `kIn` — the
current block's data when the bus epoch equals the environment epoch and
silence otherwise — so data written in the previous block is never read. -/
theorem read_ignores_input_connection_type :
    (∀ (idx1 idx2 : Nat) (bid : Option Nat) (t1 t2 : InputConnectionType)
        (e : Nat) (buses : List AudioBus) (n : Nat),
      AudioInputConnection.read ⟨idx1, bid, t1⟩ e buses n =
        AudioInputConnection.read ⟨idx2, bid, t2⟩ e buses n) ∧
    (∀ (e n b idx : Nat) (buses : List AudioBus),
      (audioBus buses b).epoch ≠ e →
      AudioInputConnection.read ⟨idx, some b, .kInFeedback⟩ e buses n = silence n) := by
  constructor
  · intro idx1 idx2 bid t1 t2 e buses n
    cases bid <;> rfl
  · intro e n b idx buses hne
    simp only [AudioInputConnection.read]
    simp only [show buses.getD b ⟨0, []⟩ = audioBus buses b from rfl, if_neg hne]

/-- C6 witness for the amended theorem. -/
theorem read_ignores_input_connection_type_witness :
    AudioInputConnection.read ⟨0, some 0, .kInFeedback⟩ 5 [⟨4, [7]⟩] 1 = silence 1 := by
  exact read_ignores_input_connection_type.2 5 1 0 0 [⟨4, [7]⟩] (by decide)

end Mescaline

namespace Methcla

/-- The OSC messages recognized by the dispatcher
(`Environment::processMessage`, both phases).  Arguments are as parsed from
the OSC argument stream; `addAction` is carried in the message even though
the code discards it with `args.drop()`. -/
inductive Msg where
  | groupNew (nodeId targetId addAction : Int)
  | synthNew (defName : String) (nodeId targetId addAction : Int) (controls : List sample_t)
  | nodeFree (nodeId : Int)
  | nodeSet (nodeId : Int) (index : Int) (value : sample_t)
  | mapInput (nodeId : Int) (index : Int) (busId : Int) (flags : Int)
  | mapOutput (nodeId : Int) (index : Int) (busId : Int) (flags : Int)
  | queryExternalInputs
  | queryExternalOutputs
deriving DecidableEq, Repr

/-- A client request (`class Request` wraps an OSC packet): a single message
or a bundle with a raw 64-bit OSC timestamp (`1` means immediate).  Nested
bundles are flattened by `processBundle`, so a bundle is modelled by its flat
message list. -/
inductive Request where
  | message (msg : Msg)
  | bundle (time : Nat) (msgs : List Msg)
deriving DecidableEq, Repr

/-- Modelled from the spec: `methcla_time_from_uint64` (its header is not
among the sources) converts a 64-bit NTP OSC timestamp — upper 32 bits whole
seconds, lower 32 bits fraction — into seconds. -/
def methcla_time_from_uint64 (t : Nat) : Methcla_Time :=
  (t : ℚ) / (2 ^ 32 : ℚ)

/-- `ScheduleItem` as stored in the scheduler's priority queue, together with
the queue's stability counter.  `ScheduleItem::operator<` compares times
reversed (`time() > other.time()`), so the boost max-heap pops the smallest
time first; `boost::heap::stable<true>` breaks ties by insertion counter (the
`static_assert(PriorityQueue::is_stable, ...)` in Engine.cpp demands this).
`reqId` identifies the originating request for the dispatch trace. -/
structure ScheduleItem where
  time : Methcla_Time
  counter : Nat
  reqId : Nat
  msgs : List Msg
deriving DecidableEq, Repr

/-- The queue's effective strict priority order: earlier time first, equal
times in insertion order. -/
def ScheduleItem.lt (a b : ScheduleItem) : Prop :=
  a.time < b.time ∨ (a.time = b.time ∧ a.counter < b.counter)

/-- The reflexive closure of the priority order. -/
def ScheduleItem.le (a b : ScheduleItem) : Prop :=
  a.time < b.time ∨ (a.time = b.time ∧ a.counter ≤ b.counter)

instance (a b : ScheduleItem) : Decidable (ScheduleItem.lt a b) := by
  unfold ScheduleItem.lt; infer_instance

instance (a b : ScheduleItem) : Decidable (ScheduleItem.le a b) := by
  unfold ScheduleItem.le; infer_instance

lemma ScheduleItem.not_lt_iff_le {a b : ScheduleItem} :
    ¬ ScheduleItem.lt a b ↔ ScheduleItem.le b a := by
  unfold ScheduleItem.lt ScheduleItem.le
  constructor
  · intro h
    push_neg at h
    obtain ⟨h1, h2⟩ := h
    rcases lt_or_eq_of_le h1 with ht | ht
    · exact Or.inl ht
    · exact Or.inr ⟨ht, h2 ht.symm⟩
  · intro h hc
    rcases h with h | ⟨he, hc2⟩
    · rcases hc with hc | ⟨hce, _⟩
      · exact absurd (lt_trans h hc) (lt_irrefl _)
      · rw [hce] at h; exact absurd h (lt_irrefl _)
    · rcases hc with hc | ⟨hce, hcc⟩
      · rw [he] at hc; exact absurd hc (lt_irrefl _)
      · omega

lemma ScheduleItem.lt_imp_le {a b : ScheduleItem} (h : ScheduleItem.lt a b) :
    ScheduleItem.le a b := by
  unfold ScheduleItem.lt at h
  unfold ScheduleItem.le
  rcases h with h | ⟨he, hc⟩
  · exact Or.inl h
  · exact Or.inr ⟨he, Nat.le_of_lt hc⟩

lemma ScheduleItem.le_trans {a b c : ScheduleItem}
    (h1 : ScheduleItem.le a b) (h2 : ScheduleItem.le b c) : ScheduleItem.le a c := by
  unfold ScheduleItem.le at h1 h2 ⊢
  rcases h1 with h1 | ⟨he1, hc1⟩ <;> rcases h2 with h2 | ⟨he2, hc2⟩
  · exact Or.inl (lt_trans h1 h2)
  · exact Or.inl (he2 ▸ h1)
  · exact Or.inl (he1 ▸ h2)
  · exact Or.inr ⟨he1.trans he2, Nat.le_trans hc1 hc2⟩

lemma ScheduleItem.lt_of_le_of_ne {a b : ScheduleItem}
    (h : ScheduleItem.le a b) (hne : a.counter ≠ b.counter) : ScheduleItem.lt a b := by
  unfold ScheduleItem.le at h
  unfold ScheduleItem.lt
  rcases h with h | ⟨he, hc⟩
  · exact Or.inl h
  · exact Or.inr ⟨he, by omega⟩

lemma ScheduleItem.le_time {a b : ScheduleItem} (h : ScheduleItem.le a b) :
    a.time ≤ b.time := by
  unfold ScheduleItem.le at h
  rcases h with h | ⟨he, _⟩
  · exact h.le
  · exact le_of_eq he

/-- `class Scheduler` (Engine.cpp lines 169-224): bounded stable priority
queue; `counter` is boost's stability counter, incremented at each push. -/
structure Scheduler where
  maxSize : Nat
  counter : Nat
  items : List ScheduleItem
deriving DecidableEq, Repr

/-- `Scheduler::push`: insert (stamped with the current stability counter)
while below capacity, otherwise throw
`std::runtime_error("Scheduler queue overflow")`. -/
def Scheduler.push (s : Scheduler) (time : Methcla_Time) (reqId : Nat) (msgs : List Msg) :
    Except String Scheduler :=
  if s.items.length < s.maxSize then
    Except.ok { s with items := s.items ++ [⟨time, s.counter, reqId, msgs⟩],
                       counter := s.counter + 1 }
  else
    Except.error ("Scheduler queue overflow")

/-- `Scheduler::isEmpty`. -/
def Scheduler.isEmpty (s : Scheduler) : Bool := s.items.isEmpty

/-- Selection of the minimal element under `(time, counter)`. -/
def foldlMin (x : ScheduleItem) (xs : List ScheduleItem) : ScheduleItem :=
  xs.foldl (fun m y => if ScheduleItem.lt y m then y else m) x

/-- The queue's top element (`Scheduler::top`/`Scheduler::time`): minimal
under the lexicographic `(time, counter)` order. -/
def Scheduler.topItem (s : Scheduler) : Option ScheduleItem :=
  match s.items with
  | [] => none
  | x :: xs => some (foldlMin x xs)

/-- Remove the first stored item carrying the given stability counter. -/
def removeCounter (c : Nat) : List ScheduleItem → List ScheduleItem
  | [] => []
  | x :: xs => if x.counter = c then xs else x :: removeCounter c xs

/-- `Scheduler::pop`: remove the top element. -/
def Scheduler.pop (s : Scheduler) : Scheduler :=
  match s.topItem with
  | none => s
  | some t => { s with items := removeCounter t.counter s.items }

/-- The drain loop of `Environment::processScheduler` (Engine.cpp lines
621-638) viewed at the queue level: repeatedly inspect the top item; when its
time is at most `nextTime` (the block end), collect it for Phase B dispatch
and pop; stop at the first later item.  The fuel argument bounds the
recursion by the queue length. -/
def Scheduler.drain : Nat → Scheduler → Methcla_Time → List ScheduleItem × Scheduler
  | 0, s, _ => ([], s)
  | Nat.succ fuel, s, nextTime =>
      match s.topItem with
      | none => ([], s)
      | some t =>
          if t.time ≤ nextTime then
            let r := Scheduler.drain fuel s.pop nextTime
            (t :: r.1, r.2)
          else ([], s)

/-- The item sequence Phase B dispatch sees in one block, plus the remaining
queue. -/
def Scheduler.processScheduler (s : Scheduler) (nextTime : Methcla_Time) :
    List ScheduleItem × Scheduler :=
  Scheduler.drain s.items.length s nextTime

lemma foldlMin_cons (x y : ScheduleItem) (ys : List ScheduleItem) :
    foldlMin x (y :: ys) = foldlMin (if ScheduleItem.lt y x then y else x) ys := rfl

lemma foldlMin_spec (xs : List ScheduleItem) : ∀ (x : ScheduleItem),
    foldlMin x xs ∈ x :: xs ∧ ∀ z ∈ x :: xs, ScheduleItem.le (foldlMin x xs) z := by
  induction xs with
  | nil =>
      intro x
      refine ⟨List.mem_singleton_self x, ?_⟩
      intro z hz
      rw [List.mem_singleton] at hz
      subst hz
      exact Or.inr ⟨rfl, Nat.le_refl _⟩
  | cons y ys ih =>
      intro x
      rw [foldlMin_cons]
      by_cases hlt : ScheduleItem.lt y x
      · rw [if_pos hlt]
        obtain ⟨hmem, hle⟩ := ih y
        constructor
        · rcases List.mem_cons.mp hmem with h | h
          · rw [h]; exact List.mem_cons_of_mem x (List.mem_cons_self y ys)
          · exact List.mem_cons_of_mem x (List.mem_cons_of_mem y h)
        · intro z hz
          rcases List.mem_cons.mp hz with h | h
          · rw [h]
            exact ScheduleItem.le_trans (hle y (List.mem_cons_self y ys))
              (ScheduleItem.lt_imp_le hlt)
          · exact hle z h
      · rw [if_neg hlt]
        obtain ⟨hmem, hle⟩ := ih x
        constructor
        · rcases List.mem_cons.mp hmem with h | h
          · rw [h]; exact List.mem_cons_self x (y :: ys)
          · exact List.mem_cons_of_mem x (List.mem_cons_of_mem y h)
        · intro z hz
          rcases List.mem_cons.mp hz with h | h
          · rw [h]
            exact hle x (List.mem_cons_self x ys)
          · rcases List.mem_cons.mp h with h2 | h2
            · rw [h2]
              exact ScheduleItem.le_trans (hle x (List.mem_cons_self x ys))
                (ScheduleItem.not_lt_iff_le.mp hlt)
            · exact hle z (List.mem_cons_of_mem x h2)

lemma topItem_none_iff {s : Scheduler} : s.topItem = none ↔ s.items = [] := by
  unfold Scheduler.topItem
  cases s.items <;> simp

lemma topItem_mem {s : Scheduler} {t : ScheduleItem} (h : s.topItem = some t) :
    t ∈ s.items := by
  unfold Scheduler.topItem at h
  rcases hit : s.items with _ | ⟨x, xs⟩
  · rw [hit] at h; exact absurd h (by simp)
  · rw [hit] at h
    simp only [Option.some.injEq] at h
    rw [← h]
    exact (foldlMin_spec xs x).1

lemma topItem_min {s : Scheduler} {t : ScheduleItem} (h : s.topItem = some t) :
    ∀ z ∈ s.items, ScheduleItem.le t z := by
  unfold Scheduler.topItem at h
  rcases hit : s.items with _ | ⟨x, xs⟩
  · rw [hit] at h; exact absurd h (by simp)
  · rw [hit] at h
    simp only [Option.some.injEq] at h
    rw [← h]
    intro z hz
    exact (foldlMin_spec xs x).2 z hz

lemma removeCounter_sublist (c : Nat) : ∀ l : List ScheduleItem,
    (removeCounter c l).Sublist l := by
  intro l
  induction l with
  | nil => exact List.Sublist.refl []
  | cons x xs ih =>
      unfold removeCounter
      by_cases hx : x.counter = c
      · rw [if_pos hx]; exact List.sublist_cons_self x xs
      · rw [if_neg hx]; exact List.Sublist.cons₂ x ih

/-- With pairwise-distinct counters, removing by counter is filtering by
counter: the first match is the only match. -/
lemma removeCounter_eq_filter (c : Nat) : ∀ l : List ScheduleItem,
    (l.map ScheduleItem.counter).Nodup →
    (∃ t ∈ l, t.counter = c) →
    removeCounter c l = l.filter (fun x => decide (x.counter ≠ c)) := by
  intro l
  induction l with
  | nil => intro _ h; exact absurd h (by simp)
  | cons x xs ih =>
      intro hnodup hex
      simp only [List.map_cons, List.nodup_cons] at hnodup
      obtain ⟨hxnotin, hnodup2⟩ := hnodup
      unfold removeCounter
      by_cases hx : x.counter = c
      · rw [if_pos hx]
        have hnone : ∀ y ∈ xs, y.counter ≠ c := by
          intro y hy hyc
          exact hxnotin (by rw [hx, ← hyc]; exact List.mem_map_of_mem ScheduleItem.counter hy)
        rw [List.filter_cons]
        simp only [hx, decide_not, decide_eq_true_eq]
        rw [if_neg (by simp)]
        rw [List.filter_eq_self.mpr]
        intro y hy
        simp [hnone y hy]
      · rw [if_neg hx]
        have hex2 : ∃ t ∈ xs, t.counter = c := by
          rcases hex with ⟨t, ht, htc⟩
          rcases List.mem_cons.mp ht with rfl | ht2
          · exact absurd htc hx
          · exact ⟨t, ht2, htc⟩
        rw [ih hnodup2 hex2, List.filter_cons]
        rw [if_pos (by simp [hx])]

lemma removeCounter_length {c : Nat} : ∀ {l : List ScheduleItem},
    (∃ t ∈ l, t.counter = c) →
    (removeCounter c l).length + 1 = l.length := by
  intro l
  induction l with
  | nil => intro h; exact absurd h (by simp)
  | cons x xs ih =>
      intro hex
      unfold removeCounter
      by_cases hx : x.counter = c
      · rw [if_pos hx]; simp
      · rw [if_neg hx]
        have hex2 : ∃ t ∈ xs, t.counter = c := by
          rcases hex with ⟨t, ht, htc⟩
          rcases List.mem_cons.mp ht with rfl | ht2
          · exact absurd htc hx
          · exact ⟨t, ht2, htc⟩
        simp only [List.length_cons]
        rw [← ih hex2]

lemma drain_zero (s : Scheduler) (nt : Methcla_Time) :
    Scheduler.drain 0 s nt = ([], s) := rfl

lemma drain_succ_none {fuel : Nat} {s : Scheduler} {nt : Methcla_Time}
    (htop : s.topItem = none) :
    Scheduler.drain (fuel + 1) s nt = ([], s) := by
  unfold Scheduler.drain
  rw [htop]

lemma drain_succ_some {fuel : Nat} {s : Scheduler} {nt : Methcla_Time} {t : ScheduleItem}
    (htop : s.topItem = some t) :
    Scheduler.drain (fuel + 1) s nt =
      if t.time ≤ nt then
        ((t :: (Scheduler.drain fuel s.pop nt).1), (Scheduler.drain fuel s.pop nt).2)
      else ([], s) := by
  show (match s.topItem with
    | none => (([] : List ScheduleItem), s)
    | some t =>
      if t.time ≤ nt then
        let r := Scheduler.drain fuel s.pop nt
        (t :: r.1, r.2)
      else ([], s)) = _
  rw [htop]

/-- Specification of the drain loop: with pairwise-distinct stability
counters it dispatches exactly the items due by `nextTime`, in strictly
increasing `(time, counter)` order, and leaves exactly the later items (in
storage order); capacity and counter are untouched. -/
lemma drain_spec : ∀ (fuel : Nat) (s : Scheduler) (nt : Methcla_Time),
    s.items.length ≤ fuel →
    (s.items.map ScheduleItem.counter).Nodup →
    (∀ x, x ∈ (Scheduler.drain fuel s nt).1 ↔ (x ∈ s.items ∧ x.time ≤ nt)) ∧
    (Scheduler.drain fuel s nt).1.Pairwise ScheduleItem.lt ∧
    (Scheduler.drain fuel s nt).2.items = s.items.filter (fun x => decide (¬ x.time ≤ nt)) ∧
    (Scheduler.drain fuel s nt).2.maxSize = s.maxSize ∧
    (Scheduler.drain fuel s nt).2.counter = s.counter := by
  intro fuel
  induction fuel with
  | zero =>
      intro s nt hlen _
      have : s.items = [] := List.length_eq_zero.mp (Nat.le_zero.mp hlen)
      rw [drain_zero]
      rw [this]
      simp
  | succ fuel ih =>
      intro s nt hlen hnodup
      rcases htop : s.topItem with _ | t
      · have : s.items = [] := topItem_none_iff.mp htop
        rw [drain_succ_none htop, this]
        simp
      · have htmem : t ∈ s.items := topItem_mem htop
        have htmin : ∀ z ∈ s.items, ScheduleItem.le t z := topItem_min htop
        by_cases hdue : t.time ≤ nt
        · rw [drain_succ_some htop, if_pos hdue]
          have hpop : s.pop = { s with items := removeCounter t.counter s.items } := by
            unfold Scheduler.pop
            rw [htop]
          have hexc : ∃ u ∈ s.items, u.counter = t.counter := ⟨t, htmem, rfl⟩
          have hremfil : removeCounter t.counter s.items =
              s.items.filter (fun x => decide (x.counter ≠ t.counter)) :=
            removeCounter_eq_filter t.counter s.items hnodup hexc
          have hplen : (s.pop).items.length ≤ fuel := by
            rw [hpop]
            have := removeCounter_length (c := t.counter) hexc
            simp only []
            omega
          have hpnodup : ((s.pop).items.map ScheduleItem.counter).Nodup := by
            rw [hpop]
            exact List.Nodup.sublist
              (List.Sublist.map ScheduleItem.counter (removeCounter_sublist t.counter s.items))
              hnodup
          obtain ⟨ihmem, ihpw, ihrem, ihmax, ihcnt⟩ := ih s.pop nt hplen hpnodup
          have hinj : ∀ x ∈ s.items, ∀ y ∈ s.items,
              x.counter = y.counter → x = y := by
            have := List.inj_on_of_nodup_map hnodup
            exact fun x hx y hy h => this hx hy h
          refine ⟨?_, ?_, ?_, ?_, ?_⟩
          · intro x
            simp only [List.mem_cons]
            constructor
            · intro hx
              rcases hx with rfl | hx
              · exact ⟨htmem, hdue⟩
              · obtain ⟨hx1, hx2⟩ := (ihmem x).mp hx
                rw [hpop] at hx1
                exact ⟨(removeCounter_sublist t.counter s.items).mem hx1, hx2⟩
            · rintro ⟨hx1, hx2⟩
              by_cases hxc : x.counter = t.counter
              · exact Or.inl (hinj x hx1 t htmem hxc)
              · refine Or.inr ((ihmem x).mpr ⟨?_, hx2⟩)
                rw [hpop]
                simp only []
                rw [hremfil, List.mem_filter]
                exact ⟨hx1, by simp [hxc]⟩
          · refine List.Pairwise.cons ?_ ihpw
            intro y hy
            obtain ⟨hy1, _⟩ := (ihmem y).mp hy
            rw [hpop] at hy1
            simp only [] at hy1
            rw [hremfil, List.mem_filter] at hy1
            obtain ⟨hy2, hy3⟩ := hy1
            refine ScheduleItem.lt_of_le_of_ne (htmin y hy2) ?_
            have hyc : y.counter ≠ t.counter := by simpa using hy3
            exact fun hcc => hyc hcc.symm
          · rw [ihrem, hpop]
            simp only []
            rw [hremfil, List.filter_filter]
            rw [List.filter_congr]
            intro x hx
            by_cases hxt : x.time ≤ nt
            · simp [hxt]
            · have hxc : x.counter ≠ t.counter := by
                intro hxc
                have := hinj x hx t htmem hxc
                rw [this] at hxt
                exact hxt hdue
              simp [hxt, hxc]
          · rw [ihmax, hpop]
          · rw [ihcnt, hpop]
        · rw [drain_succ_some htop, if_neg hdue]
          have hlate : ∀ x ∈ s.items, ¬ x.time ≤ nt := by
            intro x hx hxle
            exact hdue (le_trans (ScheduleItem.le_time (htmin x hx)) hxle)
          refine ⟨?_, List.Pairwise.nil, ?_, rfl, rfl⟩
          · intro x
            simp only [List.not_mem_nil, false_iff, not_and]
            intro hx
            exact hlate x hx
          · rw [List.filter_eq_self.mpr]
            intro x hx
            simpa using hlate x hx

/-- C2 (claim theorem): scheduled requests dispatch in `(time, arrival)`
order — `push` stamps each item with the strictly increasing stability
counter, so arrival order is counter order; in each block `processScheduler`
dispatches exactly the queued items whose time is at most the block end time,
in strictly increasing `(time, counter)` order (earlier time first, identical
times in push order), and the items with later times remain queued. -/
theorem scheduler_dispatch_order (s : Scheduler) (nextTime : Methcla_Time)
    (hnodup : (s.items.map ScheduleItem.counter).Nodup) :
    (∀ time reqId msgs s2, s.push time reqId msgs = Except.ok s2 →
      s2.items = s.items ++ [⟨time, s.counter, reqId, msgs⟩] ∧ s2.counter = s.counter + 1) ∧
    (∀ x, x ∈ (s.processScheduler nextTime).1 ↔ (x ∈ s.items ∧ x.time ≤ nextTime)) ∧
    ((s.processScheduler nextTime).1.Pairwise ScheduleItem.lt) ∧
    ((s.processScheduler nextTime).2.items =
      s.items.filter (fun x => decide (¬ x.time ≤ nextTime))) := by
  obtain ⟨hmem, hpw, hrem, _, _⟩ :=
    drain_spec s.items.length s nextTime (Nat.le_refl _) hnodup
  refine ⟨?_, hmem, hpw, hrem⟩
  intro time reqId msgs s2 hpush
  unfold Scheduler.push at hpush
  by_cases hcap : s.items.length < s.maxSize
  · rw [if_pos hcap] at hpush
    simp only [Except.ok.injEq] at hpush
    subst hpush
    exact ⟨rfl, rfl⟩
  · rw [if_neg hcap] at hpush
    exact absurd hpush (by simp)

/-- C2 witness: three queued items — time 3 (counter 0), time 1 (counter 1),
time 1 (counter 2) — against block end 2: the two due items dispatch in
`(time, counter)` order. -/
theorem scheduler_dispatch_order_witness :
    ((Scheduler.mk 8 3 [⟨3, 0, 0, []⟩, ⟨1, 1, 1, []⟩, ⟨1, 2, 2, []⟩]).processScheduler 2).1.Pairwise
      ScheduleItem.lt :=
  (scheduler_dispatch_order (Scheduler.mk 8 3 [⟨3, 0, 0, []⟩, ⟨1, 1, 1, []⟩, ⟨1, 2, 2, []⟩]) 2
    (by decide)).2.2.1

/-- `kMethcla_Notification`: the sentinel request id for engine-initiated
replies.  Its header is not among the sources; the claims only use that it
is one fixed constant that is never read from a request. -/
def kMethcla_Notification : Int := -1

/-- The root group's id: `Group::construct(*this, NodeId(0), ...)`. -/
def rootNodeId : Int := 0

/-- Modelled from the spec: the error kinds reported alongside `/error`
(`Methcla/Exception.hpp` with `class Error` is not among the sources);
`what` renders a kind as the reply's message text. -/
inductive MError where
  | nodeIdError
  | nodeTypeError
deriving DecidableEq, Repr

def MError.what : MError → String
  | MError.nodeIdError => "NodeIdError"
  | MError.nodeTypeError => "NodeTypeError"

/-- A reply packet sent through the client's packet handler: `/ack` or
`/error` with a request id and message. -/
structure Reply where
  address : String
  requestId : Int
  message : String
deriving DecidableEq, Repr

/-- Dispatch trace events: one `phaseA` per structural
`processMessage(msg)` call, one `phaseB` per timed
`processMessage(msg, scheduleTime, currentTime)` call, tagged with the
originating request. -/
inductive Event where
  | phaseA (reqId : Nat)
  | phaseB (reqId : Nat)
deriving DecidableEq, Repr

/-- A registered synth definition: the port counts the dispatcher queries
(`Methcla/Audio/SynthDef.hpp` of the Methcla namespace is not among the
sources; only these counts are observable through the dispatcher). -/
structure SynthDef where
  uri : String
  numAudioInputs : Nat
  numAudioOutputs : Nat
  numControlInputs : Nat
deriving DecidableEq, Repr

/-- A synth node's dispatcher-visible state.  `sampleOffset` and `activated`
belong to `Synth::activate`, which is not among the sources and is modelled
from the spec.  Connection slots record the raw `(busId, flags)` arguments
(`Synth::mapInput`/`mapOutput` bodies are not among the sources). -/
structure SynthState where
  synthDef : SynthDef
  controls : List sample_t
  inputConns : List (Int × Int)
  outputConns : List (Int × Int)
  sampleOffset : Int
  activated : Bool
deriving DecidableEq, Repr

/-- Modelled from the spec: `Synth::construct` sizes the control buffer from
the definition and initialises it from the OSC control arguments, allocates
one unmapped connection slot per audio port, and leaves the synth inactive
until Phase B. -/
def SynthState.construct (sd : SynthDef) (controls : List sample_t) : SynthState :=
  { synthDef := sd
  , controls := (controls ++ List.replicate sd.numControlInputs 0).take sd.numControlInputs
  , inputConns := List.replicate sd.numAudioInputs (0, 0)
  , outputConns := List.replicate sd.numAudioOutputs (0, 0)
  , sampleOffset := 0
  , activated := false }

/-- Modelled from the spec (§4.7): `Synth::activate(sampleOffset)` records
the sample-accurate activation offset — rounding the frame offset computed
by the caller — and arms the synth. -/
def SynthState.activate (s : SynthState) (offset : ℚ) : SynthState :=
  { s with sampleOffset := round offset, activated := true }

/-- Modelled from the spec (§4.7): the synth's first active block output is
silence for the first `sampleOffset` samples, then the DSP signal. -/
def SynthState.firstBlockOutput (s : SynthState) (numFrames : Nat)
    (dsp : Nat → sample_t) : List sample_t :=
  (List.range numFrames).map (fun (i : Nat) => if (i : Int) < s.sampleOffset then 0 else dsp i)

/-- A node: a group with ordered children or a synth (`Methcla/Audio/Group.hpp`
and the Methcla `Synth.hpp` are not among the sources; the dispatcher-visible
structure is the typed tree with ordered children per group). -/
inductive NodePayload where
  | group (children : List Int)
  | synth (s : SynthState)
deriving DecidableEq, Repr

/-- A registry entry: the node's parent group and its payload. -/
structure NodeRec where
  parent : Option Int
  payload : NodePayload
deriving DecidableEq, Repr

/-- The `Epoch` counter is a 64-bit unsigned integer (spec §3): arithmetic
wraps modulo `2^64`, so `epoch() - 1` at epoch 0 underflows to `2^64 - 1`. -/
def epochModulus : Nat := 2 ^ 64

def epochSub1 (e : Nat) : Nat := (e + (epochModulus - 1)) % epochModulus

def epochAdd1 (e : Nat) : Nat := (e + 1) % epochModulus

/-- The dispatcher-visible state of `Environment`/`EnvironmentImpl`. -/
structure Environment where
  sampleRate : ℚ
  blockSize : Nat
  epoch : Nat
  internalBuses : List Mescaline.AudioBus
  externalInputBuses : List Mescaline.AudioBus
  externalOutputBuses : List Mescaline.AudioBus
  synthDefs : List SynthDef
  nodes : List (Int × NodeRec)
  scheduler : Scheduler
  replies : List Reply
  errLog : List String
  trace : List Event
deriving DecidableEq, Repr

/-- `Environment::Options` (the fields the model observes). -/
structure Options where
  sampleRate : ℚ
  blockSize : Nat
  numHardwareInputChannels : Nat
  numHardwareOutputChannels : Nat
  maxNumAudioBuses : Nat
deriving Repr

/-- `Environment::Environment` (Engine.cpp lines 332-388): the epoch starts
at 0 and every audio bus — external input, external output, internal — is
constructed with `prevEpoch = epoch() - 1`, which underflows to `2^64 - 1`;
the root group (id 0) is inserted into the registry; the scheduler holds
`kQueueSize = 8192` entries. -/
def Environment.create (opts : Options) : Environment :=
  let prevEpoch := epochSub1 0
  { sampleRate := opts.sampleRate
  , blockSize := opts.blockSize
  , epoch := 0
  , internalBuses :=
      List.replicate opts.maxNumAudioBuses ⟨prevEpoch, List.replicate opts.blockSize 0⟩
  , externalInputBuses := List.replicate opts.numHardwareInputChannels ⟨prevEpoch, []⟩
  , externalOutputBuses := List.replicate opts.numHardwareOutputChannels ⟨prevEpoch, []⟩
  , synthDefs := []
  , nodes := [(rootNodeId, ⟨none, NodePayload.group []⟩)]
  , scheduler := ⟨8192, 0, []⟩
  , replies := []
  , errLog := []
  , trace := [] }

/-- `Environment::registerSynthDef`: `m_synthDefs[uri] = def` — the latest
registration for a URI wins, so the model prepends and `find?` takes the
first match. -/
def Environment.registerSynthDef (env : Environment) (sd : SynthDef) : Environment :=
  { env with synthDefs := sd :: env.synthDefs }

/-- `Environment::synthDef(uri)` lookup (throws
`std::runtime_error("Synth definition not found")` when absent). -/
def Environment.findSynthDef (env : Environment) (uri : String) : Option SynthDef :=
  env.synthDefs.find? (fun d => d.uri == uri)

/-- `m_nodes.lookup(id)`: the registry is modelled as an association list
(the `ResourceMap` implementation is not among the sources; only
lookup/insert/remove/contains semantics are used by the dispatcher). -/
def Environment.lookupNode (env : Environment) (nodeId : Int) : Option NodeRec :=
  (env.nodes.find? (fun p => p.1 == nodeId)).map Prod.snd

/-- `nodes().contains(id)`. -/
def Environment.containsNode (env : Environment) (nodeId : Int) : Bool :=
  (env.lookupNode nodeId).isSome

/-- `nodes().insert(id, node)`. -/
def Environment.insertNode (env : Environment) (nodeId : Int) (rec : NodeRec) : Environment :=
  { env with nodes := env.nodes ++ [(nodeId, rec)] }

/-- `m_nodes.remove(id)`. -/
def Environment.removeNode (env : Environment) (nodeId : Int) : Environment :=
  { env with nodes := env.nodes.filter (fun p => p.1 != nodeId) }

/-- Update the registry entry of one node in place. -/
def updateNode (nodes : List (Int × NodeRec)) (nodeId : Int) (f : NodeRec → NodeRec) :
    List (Int × NodeRec) :=
  nodes.map (fun p => if p.1 == nodeId then (p.1, f p.2) else p)

/-- `Environment::replyError` (Engine.cpp lines 586-594): format an `/error`
packet carrying the given request id and message.  The code routes it
through the worker (`perform_response_error`) to the client's packet
handler; the model records the reply that reaches the client. -/
def Environment.replyError (env : Environment) (requestId : Int) (msg : String) : Environment :=
  { env with replies := env.replies ++ [⟨("/error"), requestId, msg⟩] }

/-- `targetNode->isGroup() ? target : dynamic_cast<Synth*>(targetNode)->parent()`
(Engine.cpp lines 683-684 and 708-709); a synth always has a parent group. -/
def resolveTargetGroup (targetId : Int) (rec : NodeRec) : Int :=
  match rec.payload with
  | NodePayload.group _ => targetId
  | NodePayload.synth _ => rec.parent.getD rootNodeId

/-- Modelled from the spec: `Group::construct`/`Synth::construct` with
`Node::kAddToTail` (`Methcla/Audio/Group.hpp` and the Methcla `Synth.hpp`
are not among the sources) link the new node under the target group,
appending it at the tail of the target's child list; the dispatcher then
inserts it into the registry. -/
def Environment.addNodeToTail (env : Environment) (nodeId : Int) (targetGroupId : Int)
    (payload : NodePayload) : Environment :=
  let env2 := { env with nodes := updateNode env.nodes targetGroupId (fun rec =>
    match rec.payload with
    | NodePayload.group cs => { rec with payload := NodePayload.group (cs ++ [nodeId]) }
    | p => { rec with payload := p }) }
  env2.insertNode nodeId ⟨some targetGroupId, payload⟩

/-- Phase A, `Environment::processMessage(const Message&)` (Engine.cpp lines
665-737): structural dispatch.  `/group/new` and `/synth/new` drop the
`addAction` argument (`args.drop()`) and always link the new node with
`Node::kAddToTail`.  A thrown error is caught inside and becomes an `/error`
reply to the notification sentinel.  The returned flag is `needsScheduling`:
`false` only for a successful `/group/new`; every other path — the error
paths fall through the catch to the final `return true` — reports `true`. -/
def Environment.processMessageA (env0 : Environment) (reqId : Nat) (m : Msg) :
    Environment × Bool :=
  let env := { env0 with trace := env0.trace ++ [Event.phaseA reqId] }
  match m with
  | Msg.groupNew nodeId targetId _addAction =>
      match env.lookupNode targetId with
      | none => (env.replyError kMethcla_Notification (MError.what MError.nodeIdError), true)
      | some target =>
          let tg := resolveTargetGroup targetId target
          (env.addNodeToTail nodeId tg (NodePayload.group []), false)
  | Msg.synthNew defName nodeId targetId _addAction controls =>
      match env.findSynthDef defName with
      | none => (env.replyError kMethcla_Notification ("Synth definition not found"), true)
      | some sd =>
          match env.lookupNode targetId with
          | none =>
              (env.replyError kMethcla_Notification (MError.what MError.nodeIdError), true)
          | some target =>
              let tg := resolveTargetGroup targetId target
              (env.addNodeToTail nodeId tg
                (NodePayload.synth (SynthState.construct sd controls)), true)
  | _ => (env, true)

/-- The try-block of Phase B, `Environment::processMessage(msg,
scheduleTime, currentTime)` (Engine.cpp lines 739-828); an `Except.error`
models a thrown `Methcla::Error` or `std::runtime_error` carrying
`e.what()`.  Messages with no Phase B branch are no-ops. -/
def Environment.phaseBCore (env : Environment) (scheduleTime currentTime : Methcla_Time)
    (m : Msg) : Except String Environment :=
  match m with
  | Msg.synthNew _ nodeId _ _ _ =>
      match env.lookupNode nodeId with
      | none => Except.error (MError.what MError.nodeIdError)
      | some rec =>
          match rec.payload with
          | NodePayload.group _ => Except.error (MError.what MError.nodeTypeError)
          | NodePayload.synth s =>
              let sampleOffset : ℚ := (scheduleTime - currentTime) * env.sampleRate
              Except.ok { env with nodes := updateNode env.nodes nodeId (fun r =>
                { r with payload := NodePayload.synth (s.activate sampleOffset) }) }
  | Msg.nodeFree nodeId =>
      if ¬ env.containsNode nodeId then Except.error (MError.what MError.nodeIdError)
      else if nodeId = rootNodeId then Except.error (MError.what MError.nodeIdError)
      else Except.ok (env.removeNode nodeId)
  | Msg.nodeSet nodeId index value =>
      match env.lookupNode nodeId with
      | none => Except.error (MError.what MError.nodeIdError)
      | some rec =>
          match rec.payload with
          | NodePayload.group _ => Except.error (MError.what MError.nodeTypeError)
          | NodePayload.synth s =>
              if index < 0 ∨ (s.synthDef.numControlInputs : Int) ≤ index then
                Except.error ("Control input index out of range")
              else
                Except.ok { env with nodes := updateNode env.nodes nodeId (fun r =>
                  let s2 := { s with controls := s.controls.set index.toNat value }
                  { r with payload := NodePayload.synth s2 }) }
  | Msg.mapInput nodeId index busId flags =>
      match env.lookupNode nodeId with
      | none => Except.error (MError.what MError.nodeIdError)
      | some rec =>
          match rec.payload with
          | NodePayload.group _ => Except.error (MError.what MError.nodeTypeError)
          | NodePayload.synth s =>
              if index < 0 ∨ (s.synthDef.numAudioInputs : Int) ≤ index then
                Except.error ("Synth input index out of range")
              else
                Except.ok { env with nodes := updateNode env.nodes nodeId (fun r =>
                  let s2 := { s with inputConns := s.inputConns.set index.toNat (busId, flags) }
                  { r with payload := NodePayload.synth s2 }) }
  | Msg.mapOutput nodeId index busId flags =>
      match env.lookupNode nodeId with
      | none => Except.error (MError.what MError.nodeIdError)
      | some rec =>
          match rec.payload with
          | NodePayload.group _ => Except.error (MError.what MError.nodeTypeError)
          | NodePayload.synth s =>
              if index < 0 ∨ (s.synthDef.numAudioOutputs : Int) ≤ index then
                Except.error ("Synth output index out of range")
              else
                Except.ok { env with nodes := updateNode env.nodes nodeId (fun r =>
                  let s2 := { s with outputConns := s.outputConns.set index.toNat (busId, flags) }
                  { r with payload := NodePayload.synth s2 }) }
  | Msg.groupNew _ _ _ => Except.ok env
  | Msg.queryExternalInputs => Except.ok env
  | Msg.queryExternalOutputs => Except.ok env

/-- Phase B with its enclosing catch: a thrown error becomes an `/error`
reply to `kMethcla_Notification` (the requestId parse at the top of
`processMessage` is commented out in the source) and dispatch continues.
The trace event is recorded after the dispatch (neither the try-block nor
`replyError` reads the trace). -/
def Environment.processMessageB (env0 : Environment) (reqId : Nat)
    (scheduleTime currentTime : Methcla_Time) (m : Msg) : Environment :=
  let env2 := match env0.phaseBCore scheduleTime currentTime m with
    | Except.ok e => e
    | Except.error msg => env0.replyError kMethcla_Notification msg
  { env2 with trace := env2.trace ++ [Event.phaseB reqId] }

/-- Phase A over a bundle's packets (`processBundle(bundle)`), accumulating
`needsScheduling` with `|=`. -/
def Environment.processBundleA (env : Environment) (reqId : Nat) (msgs : List Msg) :
    Environment × Bool :=
  msgs.foldl (fun acc m =>
    let r := Environment.processMessageA acc.1 reqId m
    (r.1, acc.2 || r.2)) (env, false)

/-- Phase B over a bundle's packets (`processBundle(bundle, scheduleTime,
currentTime)`; nested bundles are flattened). -/
def Environment.processBundleB (env : Environment) (reqId : Nat)
    (scheduleTime currentTime : Methcla_Time) (msgs : List Msg) : Environment :=
  msgs.foldl (fun e m => Environment.processMessageB e reqId scheduleTime currentTime m) env

/-- The loop body of `Environment::processRequests` (Engine.cpp lines
596-619) for one drained request: Phase A first; a single message, or an
immediate bundle (raw OSC time `1`), goes straight to Phase B with
`scheduleTime = currentTime`; any other bundle that needs scheduling is
pushed on the scheduler.  A push overflow throw is caught by the enclosing
try/catch, which prints `e.what()` to `std::cerr` — it sends no reply and
the request is dropped. -/
def Environment.processRequest1 (env : Environment) (reqId : Nat) (r : Request)
    (currentTime : Methcla_Time) : Environment :=
  match r with
  | Request.message m =>
      let ar := env.processMessageA reqId m
      if ar.2 then ar.1.processMessageB reqId currentTime currentTime m else ar.1
  | Request.bundle rawTime msgs =>
      let ar := env.processBundleA reqId msgs
      if ar.2 then
        if rawTime = 1 then
          ar.1.processBundleB reqId currentTime currentTime msgs
        else
          match ar.1.scheduler.push (methcla_time_from_uint64 rawTime) reqId msgs with
          | Except.ok s2 => { ar.1 with scheduler := s2 }
          | Except.error msg => { ar.1 with errLog := ar.1.errLog ++ [msg] }
      else ar.1

/-- `Environment::processRequests`: drain the request queue in FIFO order;
request ids are drain positions. -/
def Environment.processRequests (env : Environment) (reqs : List Request)
    (currentTime : Methcla_Time) : Environment :=
  (reqs.enum).foldl (fun e p => e.processRequest1 p.1 p.2 currentTime) env

/-- `Environment::processScheduler` (Engine.cpp lines 621-638): while the
top item is due (`scheduleTime <= nextTime`), dispatch Phase B on its
messages with the item's time as `scheduleTime`, then pop.  The fuel bounds
the loop by the queue length. -/
def Environment.processSchedulerLoop :
    Nat → Environment → Methcla_Time → Methcla_Time → Environment
  | 0, env, _, _ => env
  | Nat.succ fuel, env, currentTime, nextTime =>
      match env.scheduler.topItem with
      | none => env
      | some t =>
          if t.time ≤ nextTime then
            let env2 := Environment.processBundleB env t.reqId t.time currentTime t.msgs
            let env3 := { env2 with scheduler := env2.scheduler.pop }
            Environment.processSchedulerLoop fuel env3 currentTime nextTime
          else env

def Environment.processScheduler (env : Environment) (currentTime nextTime : Methcla_Time) :
    Environment :=
  Environment.processSchedulerLoop env.scheduler.items.length env currentTime nextTime

/-- The target of one graph write performed during
`rootNode->process(numFrames)`. -/
inductive BusRef where
  | internal (i : Nat)
  | externalOutput (i : Nat)
deriving DecidableEq, Repr

/-- One write the node graph performs on a bus during its traversal.  The
graph touches buses only through `AudioOutputConnection::write`; a block's
graph activity is abstracted as the sequence of such writes. -/
abbrev GraphWrite := BusRef × List sample_t

def Environment.applyGraphWrite (env : Environment) (numFrames : Nat) (w : GraphWrite) :
    Environment :=
  match w.1 with
  | BusRef.internal i =>
      let bus := Mescaline.audioBus env.internalBuses i
      { env with internalBuses :=
          env.internalBuses.set i (Mescaline.AudioBus.writeRule env.epoch numFrames w.2 bus) }
  | BusRef.externalOutput i =>
      let bus := Mescaline.audioBus env.externalOutputBuses i
      { env with externalOutputBuses :=
          env.externalOutputBuses.set i (Mescaline.AudioBus.writeRule env.epoch numFrames w.2 bus) }

/-- The external-input wiring loop (Engine.cpp lines 469-472): bus `i`
receives the driver buffer `inputs[i]` via `setData` and is stamped with the
current epoch via `setEpoch`. -/
def wireExternalInputs (e : Nat) :
    List (List sample_t) → List Mescaline.AudioBus → List Mescaline.AudioBus
  | _, [] => []
  | datas, _bus :: buses => ⟨e, datas.headD []⟩ :: wireExternalInputs e datas.tail buses

/-- The external-output wiring loop (Engine.cpp lines 473-475): bus `i`
receives the driver buffer `outputs[i]` via `setData`; its epoch is left
alone. -/
def wireExternalOutputs :
    List (List sample_t) → List Mescaline.AudioBus → List Mescaline.AudioBus
  | _, [] => []
  | datas, bus :: buses => ⟨bus.epoch, datas.headD []⟩ :: wireExternalOutputs datas.tail buses

/-- `memset(outputs[i], 0, numFrames)` on every external output bus whose
epoch is not the current epoch (Engine.cpp lines 481-485); the bus epoch is
left unchanged. -/
def zeroUnwritten (e : Nat) (n : Nat) (buses : List Mescaline.AudioBus) :
    List Mescaline.AudioBus :=
  buses.map (fun bus =>
    if bus.epoch ≠ e then ⟨bus.epoch, Mescaline.copyFrames n (Mescaline.silence n) bus.data⟩
    else bus)

/-- The externally supplied content of one driver callback. -/
structure BlockInput where
  reqs : List Request
  extInputs : List (List sample_t)
  extOutputsIn : List (List sample_t)
  graphWrites : List GraphWrite
  currentTime : Methcla_Time
  numFrames : Nat
deriving Repr

/-- Wiring of the external buses at the top of the graph stage (Engine.cpp
lines 469-475). -/
def Environment.wireBuses (env : Environment) (b : BlockInput) : Environment :=
  { env with
    externalInputBuses := wireExternalInputs env.epoch b.extInputs env.externalInputBuses
    externalOutputBuses := wireExternalOutputs b.extOutputsIn env.externalOutputBuses }

/-- `m_rootNode->process(numFrames)`: the block's graph writes in order. -/
def Environment.runGraph (env : Environment) (b : BlockInput) : Environment :=
  b.graphWrites.foldl (fun e w => e.applyGraphWrite b.numFrames w) env

/-- Zero the external outputs not written this block (Engine.cpp 481-485). -/
def Environment.zeroOutputs (env : Environment) (numFrames : Nat) : Environment :=
  { env with externalOutputBuses :=
      zeroUnwritten env.epoch numFrames env.externalOutputBuses }

/-- `Environment::process` (Engine.cpp lines 452-488) up to — not including
— the final epoch increment: drain the request queue, drain the scheduler up
to `currentTime + numFrames / sampleRate()`, wire the external buses (inputs
receive the driver data and are stamped with the current epoch; outputs
receive the driver buffer), run the graph writes, and finally zero every
external output bus whose epoch is not the current epoch. -/
def Environment.processMid (env : Environment) (b : BlockInput) : Environment :=
  let env1 := env.processRequests b.reqs b.currentTime
  let env2 := env1.processScheduler b.currentTime
    (b.currentTime + (b.numFrames : ℚ) / env1.sampleRate)
  (((env2.wireBuses b).runGraph b).zeroOutputs b.numFrames : Environment)

/-- One full driver callback: `processMid` then `m_impl->m_epoch++`. -/
def Environment.process (env : Environment) (b : BlockInput) : Environment :=
  let mid := env.processMid b
  { mid with epoch := epochAdd1 mid.epoch }

/-- A sequence of driver callbacks. -/
def Environment.runBlocks (env : Environment) (bs : List BlockInput) : Environment :=
  bs.foldl Environment.process env

/-- Registry lookup at the association-list level. -/
def lookupN (nodes : List (Int × NodeRec)) (nodeId : Int) : Option NodeRec :=
  (nodes.find? (fun p => p.1 == nodeId)).map Prod.snd

lemma lookupNode_eq_lookupN (env : Environment) (nodeId : Int) :
    env.lookupNode nodeId = lookupN env.nodes nodeId := rfl

lemma lookupN_cons_pos {q : Int × NodeRec} {qs : List (Int × NodeRec)} {nodeId : Int}
    (hq : (q.1 == nodeId) = true) : lookupN (q :: qs) nodeId = some q.2 := by
  simp only [lookupN]
  rw [List.find?_cons_of_pos qs hq]
  rfl

lemma lookupN_cons_neg {q : Int × NodeRec} {qs : List (Int × NodeRec)} {nodeId : Int}
    (hq : (q.1 == nodeId) = false) : lookupN (q :: qs) nodeId = lookupN qs nodeId := by
  simp only [lookupN]
  rw [List.find?_cons_of_neg qs (by simp [hq])]

lemma lookupN_update_self {nodes : List (Int × NodeRec)} {nodeId : Int} {rec : NodeRec}
    (f : NodeRec → NodeRec) (h : lookupN nodes nodeId = some rec) :
    lookupN (updateNode nodes nodeId f) nodeId = some (f rec) := by
  induction nodes with
  | nil => exact absurd h (by simp [lookupN])
  | cons q qs ih =>
      by_cases hq : (q.1 == nodeId) = true
      · rw [lookupN_cons_pos hq] at h
        simp only [Option.some.injEq] at h
        simp only [updateNode, List.map_cons]
        rw [if_pos hq]
        rw [lookupN_cons_pos (show (((q.1, f q.2)).1 == nodeId) = true from hq)]
        rw [h]
      · have hq2 : (q.1 == nodeId) = false := by simpa using hq
        rw [lookupN_cons_neg hq2] at h
        simp only [updateNode, List.map_cons]
        rw [if_neg hq]
        rw [lookupN_cons_neg hq2]
        exact ih h

lemma lookupN_update_other {nodes : List (Int × NodeRec)} {nodeId other : Int}
    (f : NodeRec → NodeRec) (hne : other ≠ nodeId) :
    lookupN (updateNode nodes nodeId f) other = lookupN nodes other := by
  induction nodes with
  | nil => rfl
  | cons q qs ih =>
      simp only [updateNode, List.map_cons]
      by_cases hq : (q.1 == nodeId) = true
      · rw [if_pos hq]
        have h1 : q.1 = nodeId := by simpa using hq
        have hno : ¬ (nodeId = other) := fun h => hne h.symm
        have hqo : (q.1 == other) = false := by
          rw [h1]
          simpa using hno
        rw [lookupN_cons_neg (show (((q.1, f q.2)).1 == other) = false from hqo),
          lookupN_cons_neg hqo]
        exact ih
      · rw [if_neg hq]
        by_cases hqo : (q.1 == other) = true
        · rw [lookupN_cons_pos hqo, lookupN_cons_pos hqo]
        · have hqo2 : (q.1 == other) = false := by simpa using hqo
          rw [lookupN_cons_neg hqo2, lookupN_cons_neg hqo2]
          exact ih

lemma lookupN_append_none {l1 l2 : List (Int × NodeRec)} {nodeId : Int}
    (h : lookupN l1 nodeId = none) :
    lookupN (l1 ++ l2) nodeId = lookupN l2 nodeId := by
  simp only [lookupN] at h ⊢
  cases hf : l1.find? (fun p => p.1 == nodeId) with
  | none => rw [List.find?_append, hf]; simp
  | some p => rw [hf] at h; exact absurd h (by simp)

lemma lookupN_append_some {l1 l2 : List (Int × NodeRec)} {nodeId : Int} {rec : NodeRec}
    (h : lookupN l1 nodeId = some rec) :
    lookupN (l1 ++ l2) nodeId = some rec := by
  simp only [lookupN] at h ⊢
  rw [List.find?_append]
  obtain ⟨p, hp, hps⟩ : ∃ p, l1.find? (fun p => p.1 == nodeId) = some p ∧ p.2 = rec := by
    cases hf : l1.find? (fun p => p.1 == nodeId) with
    | none => rw [hf] at h; exact absurd h (by simp)
    | some p => rw [hf] at h; exact ⟨p, rfl, by simpa using h⟩
  rw [hp]
  simp [hps]

lemma lookupN_singleton (nodeId : Int) (rec : NodeRec) :
    lookupN [(nodeId, rec)] nodeId = some rec := by
  simp [lookupN]

lemma addNodeToTail_nodes (env : Environment) (nodeId tg : Int) (payload : NodePayload) :
    (env.addNodeToTail nodeId tg payload).nodes =
      updateNode env.nodes tg (fun rec =>
        match rec.payload with
        | NodePayload.group cs => { rec with payload := NodePayload.group (cs ++ [nodeId]) }
        | p => { rec with payload := p }) ++ [(nodeId, ⟨some tg, payload⟩)] := rfl

/-- C10 (claim theorem): `/group/new` and `/synth/new` ignore the
`addAction` argument (`args.drop()` in the source) — the dispatch result is
the same for any two values — and the new node is always linked at the
tail of the resolved target group: the target itself when it is a group,
else the target synth's parent group (`Node::kAddToTail` is hard-coded). -/
theorem addAction_ignored (env : Environment) (reqId : Nat)
    (nodeId targetId : Int) (tRec grec : NodeRec) (cs : List Int)
    (hT : env.lookupNode targetId = some tRec)
    (hG : env.lookupNode (resolveTargetGroup targetId tRec) = some grec)
    (hGrp : grec.payload = NodePayload.group cs)
    (hfresh : env.lookupNode nodeId = none) :
    (∀ a1 a2, env.processMessageA reqId (Msg.groupNew nodeId targetId a1) =
       env.processMessageA reqId (Msg.groupNew nodeId targetId a2)) ∧
    (∀ defName a1 a2 controls,
       env.processMessageA reqId (Msg.synthNew defName nodeId targetId a1 controls) =
       env.processMessageA reqId (Msg.synthNew defName nodeId targetId a2 controls)) ∧
    (∀ a,
      (env.processMessageA reqId (Msg.groupNew nodeId targetId a)).1.lookupNode
          (resolveTargetGroup targetId tRec) =
        some { grec with payload := NodePayload.group (cs ++ [nodeId]) } ∧
      (env.processMessageA reqId (Msg.groupNew nodeId targetId a)).1.lookupNode nodeId =
        some ⟨some (resolveTargetGroup targetId tRec), NodePayload.group []⟩) ∧
    (∀ defName a controls sd, env.findSynthDef defName = some sd →
      (env.processMessageA reqId
          (Msg.synthNew defName nodeId targetId a controls)).1.lookupNode
          (resolveTargetGroup targetId tRec) =
        some { grec with payload := NodePayload.group (cs ++ [nodeId]) } ∧
      (env.processMessageA reqId
          (Msg.synthNew defName nodeId targetId a controls)).1.lookupNode nodeId =
        some ⟨some (resolveTargetGroup targetId tRec),
          NodePayload.synth (SynthState.construct sd controls)⟩) := by
  have hne : nodeId ≠ resolveTargetGroup targetId tRec := by
    intro hcc
    rw [← hcc] at hG
    rw [hG] at hfresh
    exact absurd hfresh (by simp)
  have htail : ∀ (envT : Environment), envT.nodes = env.nodes →
      ∀ payload,
        (envT.addNodeToTail nodeId (resolveTargetGroup targetId tRec) payload).lookupNode
            (resolveTargetGroup targetId tRec) =
          some { grec with payload := NodePayload.group (cs ++ [nodeId]) } ∧
        (envT.addNodeToTail nodeId (resolveTargetGroup targetId tRec) payload).lookupNode nodeId =
          some ⟨some (resolveTargetGroup targetId tRec), payload⟩ := by
    intro envT hnodes payload
    have hGl : lookupN envT.nodes (resolveTargetGroup targetId tRec) = some grec := by
      rw [hnodes]; exact hG
    have hfl : lookupN envT.nodes nodeId = none := by
      rw [hnodes]; exact hfresh
    constructor
    · rw [lookupNode_eq_lookupN, addNodeToTail_nodes]
      rw [lookupN_append_some (lookupN_update_self _ hGl)]
      rw [hGrp]
    · rw [lookupNode_eq_lookupN, addNodeToTail_nodes]
      rw [lookupN_append_none (by rw [lookupN_update_other _ hne]; exact hfl)]
      exact lookupN_singleton _ _
  refine ⟨fun a1 a2 => rfl, fun d a1 a2 c => rfl, ?_, ?_⟩
  · intro a
    have := htail { env with trace := env.trace ++ [Event.phaseA reqId] } rfl
      (NodePayload.group [])
    simp only [Environment.processMessageA]
    rw [show Environment.lookupNode { env with trace := env.trace ++ [Event.phaseA reqId] }
      targetId = some tRec from hT]
    exact this
  · intro defName a controls sd hdef
    have := htail { env with trace := env.trace ++ [Event.phaseA reqId] } rfl
      (NodePayload.synth (SynthState.construct sd controls))
    simp only [Environment.processMessageA]
    rw [show Environment.findSynthDef { env with trace := env.trace ++ [Event.phaseA reqId] }
      defName = some sd from hdef]
    rw [show Environment.lookupNode { env with trace := env.trace ++ [Event.phaseA reqId] }
      targetId = some tRec from hT]
    exact this

/-- C8 (claim theorem): dispatching `/synth/new` in Phase B at
`scheduleTime` against the block starting at `currentTime` activates the
synth with `sampleOffset = round((scheduleTime - currentTime) * sampleRate)`
— Engine.cpp lines 749-760 compute the frame offset `(scheduleTime -
currentTime) * sampleRate()`; the rounding and the first-block silence live
in `Synth::activate`/`Synth::process`, which are not among the sources and
are modelled from the spec (§4.7) — and the synth's first active block is
silent for exactly the first `sampleOffset` samples. -/
theorem synthNew_sample_offset (env : Environment) (reqId : Nat)
    (st ct : Methcla_Time) (defName : String) (nodeId targetId addAction : Int)
    (controls : List sample_t) (s : SynthState) (rec : NodeRec)
    (hlook : env.lookupNode nodeId = some rec)
    (hsyn : rec.payload = NodePayload.synth s)
    (n : Nat) (dsp : Nat → sample_t) :
    ∃ s2 : SynthState,
      (env.processMessageB reqId st ct
          (Msg.synthNew defName nodeId targetId addAction controls)).lookupNode nodeId =
        some { rec with payload := NodePayload.synth s2 } ∧
      s2.sampleOffset = round ((st - ct) * env.sampleRate) ∧
      s2.activated = true ∧
      ∀ i, i < n →
        (s2.firstBlockOutput n dsp).getD i 0 =
          if (i : Int) < s2.sampleOffset then 0 else dsp i := by
  have hcore : env.phaseBCore st ct (Msg.synthNew defName nodeId targetId addAction controls) =
      Except.ok { env with nodes := updateNode env.nodes nodeId (fun r =>
        { r with payload := NodePayload.synth (s.activate ((st - ct) * env.sampleRate)) }) } := by
    simp only [Environment.phaseBCore]
    rw [hlook]
    simp only []
    rw [hsyn]
  refine ⟨s.activate ((st - ct) * env.sampleRate), ?_, rfl, rfl, ?_⟩
  · have hB : (env.processMessageB reqId st ct
        (Msg.synthNew defName nodeId targetId addAction controls)).nodes =
        updateNode env.nodes nodeId (fun r =>
          { r with payload := NodePayload.synth (s.activate ((st - ct) * env.sampleRate)) }) := by
      simp only [Environment.processMessageB, hcore]
    rw [lookupNode_eq_lookupN, hB]
    exact lookupN_update_self _ hlook
  · intro i hi
    simp only [SynthState.firstBlockOutput, List.getD_eq_getElem?_getD, List.getElem?_map,
      List.getElem?_range, hi]
    rfl

/-- C8 witness: a synth node 2 activated at schedule time 1 in the block
starting at 0 with sample rate 48000. -/
theorem synthNew_sample_offset_witness :
    ∃ s2 : SynthState,
      (({ Environment.create ⟨48000, 4, 0, 0, 1⟩ with nodes :=
          [(0, ⟨none, NodePayload.group [2]⟩),
           (2, ⟨some 0, NodePayload.synth (SynthState.construct ⟨("d"), 0, 0, 0⟩ [])⟩)] } :
            Environment).processMessageB 0 1 0
          (Msg.synthNew ("d") 2 0 0 [])).lookupNode 2 =
        some { parent := some 0, payload := NodePayload.synth s2 } ∧
      s2.sampleOffset = round (((1 : ℚ) - 0) * (48000 : ℚ)) ∧
      s2.activated = true ∧
      ∀ i, i < 4 →
        (s2.firstBlockOutput 4 (fun _ => 1)).getD i 0 =
          if (i : Int) < s2.sampleOffset then 0 else 1 := by
  have h := synthNew_sample_offset
    ({ Environment.create ⟨48000, 4, 0, 0, 1⟩ with nodes :=
        [(0, ⟨none, NodePayload.group [2]⟩),
         (2, ⟨some 0, NodePayload.synth (SynthState.construct ⟨("d"), 0, 0, 0⟩ [])⟩)] })
    0 1 0 ("d") 2 0 0 [] (SynthState.construct ⟨("d"), 0, 0, 0⟩ [])
    ⟨some 0, NodePayload.synth (SynthState.construct ⟨("d"), 0, 0, 0⟩ [])⟩
    (by decide) rfl 4 (fun _ => 1)
  exact h

def Event.isA : Event → Bool
  | Event.phaseA _ => true
  | Event.phaseB _ => false

def Event.isB : Event → Bool
  | Event.phaseA _ => false
  | Event.phaseB _ => true

/-- Structural dispatch touches neither the scheduler, the log, the epoch,
the rate nor the buses, and appends exactly one `phaseA` event. -/
lemma processMessageA_effects (env : Environment) (reqId : Nat) (m : Msg) :
    (env.processMessageA reqId m).1.trace = env.trace ++ [Event.phaseA reqId] ∧
    (env.processMessageA reqId m).1.scheduler = env.scheduler ∧
    (env.processMessageA reqId m).1.errLog = env.errLog ∧
    (env.processMessageA reqId m).1.epoch = env.epoch ∧
    (env.processMessageA reqId m).1.sampleRate = env.sampleRate ∧
    (env.processMessageA reqId m).1.internalBuses = env.internalBuses ∧
    (env.processMessageA reqId m).1.externalInputBuses = env.externalInputBuses ∧
    (env.processMessageA reqId m).1.externalOutputBuses = env.externalOutputBuses := by
  cases m <;> simp only [Environment.processMessageA] <;> (repeat' split) <;>
    (refine ⟨?_, ?_, ?_, ?_, ?_, ?_, ?_, ?_⟩ <;> first | rfl | trivial)

/-- The Phase B try-block only ever modifies the node registry. -/
lemma phaseBCore_ok_frame {env e2 : Environment} {st ct : Methcla_Time} {m : Msg}
    (h : env.phaseBCore st ct m = Except.ok e2) :
    e2.trace = env.trace ∧ e2.scheduler = env.scheduler ∧ e2.replies = env.replies ∧
    e2.errLog = env.errLog ∧ e2.epoch = env.epoch ∧ e2.sampleRate = env.sampleRate ∧
    e2.internalBuses = env.internalBuses ∧
    e2.externalInputBuses = env.externalInputBuses ∧
    e2.externalOutputBuses = env.externalOutputBuses := by
  cases m <;> simp only [Environment.phaseBCore] at h <;> (repeat' split at h) <;>
    first
      | exact Except.noConfusion h
      | (simp only [Except.ok.injEq] at h; subst h;
          exact ⟨rfl, rfl, rfl, rfl, rfl, rfl, rfl, rfl, rfl⟩)

lemma processMessageB_eq_ok {env e2 : Environment} {reqId : Nat} {st ct : Methcla_Time}
    {m : Msg} (h : env.phaseBCore st ct m = Except.ok e2) :
    env.processMessageB reqId st ct m = { e2 with trace := e2.trace ++ [Event.phaseB reqId] } := by
  simp only [Environment.processMessageB, h]

lemma processMessageB_eq_error {env : Environment} {reqId : Nat} {st ct : Methcla_Time}
    {m : Msg} {s : String} (h : env.phaseBCore st ct m = Except.error s) :
    env.processMessageB reqId st ct m =
      { env.replyError kMethcla_Notification s with
        trace := (env.replyError kMethcla_Notification s).trace ++ [Event.phaseB reqId] } := by
  simp only [Environment.processMessageB, h]

/-- Timed dispatch of one message appends exactly one `phaseB` event and
leaves the scheduler, the log, the epoch, the rate and the buses alone. -/
lemma processMessageB_effects (env : Environment) (reqId : Nat) (st ct : Methcla_Time)
    (m : Msg) :
    (env.processMessageB reqId st ct m).trace = env.trace ++ [Event.phaseB reqId] ∧
    (env.processMessageB reqId st ct m).scheduler = env.scheduler ∧
    (env.processMessageB reqId st ct m).errLog = env.errLog ∧
    (env.processMessageB reqId st ct m).epoch = env.epoch ∧
    (env.processMessageB reqId st ct m).sampleRate = env.sampleRate ∧
    (env.processMessageB reqId st ct m).internalBuses = env.internalBuses ∧
    (env.processMessageB reqId st ct m).externalInputBuses = env.externalInputBuses ∧
    (env.processMessageB reqId st ct m).externalOutputBuses = env.externalOutputBuses := by
  cases h : env.phaseBCore st ct m with
  | ok e2 =>
      obtain ⟨h1, h2, _, h4, h5, h6, h7, h8, h9⟩ := phaseBCore_ok_frame h
      rw [processMessageB_eq_ok h]
      exact ⟨by simp [h1], h2, h4, h5, h6, h7, h8, h9⟩
  | error s =>
      rw [processMessageB_eq_error h]
      exact ⟨rfl, rfl, rfl, rfl, rfl, rfl, rfl, rfl⟩

/-- Phase A over a bundle: one `phaseA` event per message, everything but
registry and replies untouched; the flag is independent of the accumulator. -/
lemma processBundleA_effects : ∀ (msgs : List Msg) (env : Environment) (reqId : Nat) (b : Bool),
    ((msgs.foldl (fun acc m =>
        let r := Environment.processMessageA acc.1 reqId m
        (r.1, acc.2 || r.2)) (env, b)).1.trace =
      env.trace ++ List.replicate msgs.length (Event.phaseA reqId)) ∧
    ((msgs.foldl (fun acc m =>
        let r := Environment.processMessageA acc.1 reqId m
        (r.1, acc.2 || r.2)) (env, b)).1.scheduler = env.scheduler) ∧
    ((msgs.foldl (fun acc m =>
        let r := Environment.processMessageA acc.1 reqId m
        (r.1, acc.2 || r.2)) (env, b)).1.errLog = env.errLog) ∧
    ((msgs.foldl (fun acc m =>
        let r := Environment.processMessageA acc.1 reqId m
        (r.1, acc.2 || r.2)) (env, b)).1.epoch = env.epoch) ∧
    ((msgs.foldl (fun acc m =>
        let r := Environment.processMessageA acc.1 reqId m
        (r.1, acc.2 || r.2)) (env, b)).1.sampleRate = env.sampleRate) ∧
    ((msgs.foldl (fun acc m =>
        let r := Environment.processMessageA acc.1 reqId m
        (r.1, acc.2 || r.2)) (env, b)).1.internalBuses = env.internalBuses) ∧
    ((msgs.foldl (fun acc m =>
        let r := Environment.processMessageA acc.1 reqId m
        (r.1, acc.2 || r.2)) (env, b)).1.externalInputBuses = env.externalInputBuses) ∧
    ((msgs.foldl (fun acc m =>
        let r := Environment.processMessageA acc.1 reqId m
        (r.1, acc.2 || r.2)) (env, b)).1.externalOutputBuses = env.externalOutputBuses) := by
  intro msgs
  induction msgs with
  | nil =>
      intro env reqId b
      exact ⟨by simp, rfl, rfl, rfl, rfl, rfl, rfl, rfl⟩
  | cons m ms ih =>
      intro env reqId b
      simp only [List.foldl_cons]
      obtain ⟨a1, a2, a3, a4, a5, a6, a7, a8⟩ := processMessageA_effects env reqId m
      obtain ⟨i1, i2, i3, i4, i5, i6, i7, i8⟩ :=
        ih (env.processMessageA reqId m).1 reqId (b || (env.processMessageA reqId m).2)
      refine ⟨?_, by rw [i2, a2], by rw [i3, a3], by rw [i4, a4], by rw [i5, a5],
        by rw [i6, a6], by rw [i7, a7], by rw [i8, a8]⟩
      rw [i1, a1]
      simp [List.replicate_succ, List.append_assoc]

/-- Phase B over a bundle: one `phaseB` event per message, scheduler, log,
epoch, rate and buses untouched. -/
lemma processBundleB_effects : ∀ (msgs : List Msg) (env : Environment) (reqId : Nat)
    (st ct : Methcla_Time),
    (Environment.processBundleB env reqId st ct msgs).trace =
      env.trace ++ List.replicate msgs.length (Event.phaseB reqId) ∧
    (Environment.processBundleB env reqId st ct msgs).scheduler = env.scheduler ∧
    (Environment.processBundleB env reqId st ct msgs).errLog = env.errLog ∧
    (Environment.processBundleB env reqId st ct msgs).epoch = env.epoch ∧
    (Environment.processBundleB env reqId st ct msgs).sampleRate = env.sampleRate ∧
    (Environment.processBundleB env reqId st ct msgs).internalBuses = env.internalBuses ∧
    (Environment.processBundleB env reqId st ct msgs).externalInputBuses =
      env.externalInputBuses ∧
    (Environment.processBundleB env reqId st ct msgs).externalOutputBuses =
      env.externalOutputBuses := by
  intro msgs
  induction msgs with
  | nil =>
      intro env reqId st ct
      exact ⟨by simp [Environment.processBundleB], rfl, rfl, rfl, rfl, rfl, rfl, rfl⟩
  | cons m ms ih =>
      intro env reqId st ct
      obtain ⟨b1, b2, b3, b4, b5, b6, b7, b8⟩ := processMessageB_effects env reqId st ct m
      obtain ⟨i1, i2, i3, i4, i5, i6, i7, i8⟩ :=
        ih (env.processMessageB reqId st ct m) reqId st ct
      have hc : Environment.processBundleB env reqId st ct (m :: ms) =
          Environment.processBundleB (env.processMessageB reqId st ct m) reqId st ct ms := rfl
      rw [hc]
      refine ⟨?_, by rw [i2, b2], by rw [i3, b3], by rw [i4, b4], by rw [i5, b5],
        by rw [i6, b6], by rw [i7, b7], by rw [i8, b8]⟩
      rw [i1, b1]
      simp [List.replicate_succ, List.append_assoc]

lemma loopEnv_zero (env : Environment) (ct nt : Methcla_Time) :
    Environment.processSchedulerLoop 0 env ct nt = env := rfl

lemma loopEnv_succ_none {fuel : Nat} {env : Environment} {ct nt : Methcla_Time}
    (h : env.scheduler.topItem = none) :
    Environment.processSchedulerLoop (fuel + 1) env ct nt = env := by
  show (match env.scheduler.topItem with
    | none => env
    | some t =>
        if t.time ≤ nt then
          let env2 := Environment.processBundleB env t.reqId t.time ct t.msgs
          let env3 := { env2 with scheduler := env2.scheduler.pop }
          Environment.processSchedulerLoop fuel env3 ct nt
        else env) = env
  rw [h]

lemma loopEnv_succ_some {fuel : Nat} {env : Environment} {ct nt : Methcla_Time}
    {t : ScheduleItem} (h : env.scheduler.topItem = some t) :
    Environment.processSchedulerLoop (fuel + 1) env ct nt =
      if t.time ≤ nt then
        Environment.processSchedulerLoop fuel
          { Environment.processBundleB env t.reqId t.time ct t.msgs with
            scheduler := (Environment.processBundleB env t.reqId t.time ct t.msgs).scheduler.pop }
          ct nt
      else env := by
  show (match env.scheduler.topItem with
    | none => env
    | some t =>
        if t.time ≤ nt then
          let env2 := Environment.processBundleB env t.reqId t.time ct t.msgs
          let env3 := { env2 with scheduler := env2.scheduler.pop }
          Environment.processSchedulerLoop fuel env3 ct nt
        else env) = _
  rw [h]

/-- The scheduler drain loop appends only `phaseB` events to the trace and
leaves epoch, rate, log and buses alone. -/
lemma processSchedulerLoop_effects : ∀ (fuel : Nat) (env : Environment) (ct nt : Methcla_Time),
    (∃ tr, (Environment.processSchedulerLoop fuel env ct nt).trace = env.trace ++ tr ∧
      ∀ ev ∈ tr, ev.isB = true) ∧
    (Environment.processSchedulerLoop fuel env ct nt).errLog = env.errLog ∧
    (Environment.processSchedulerLoop fuel env ct nt).epoch = env.epoch ∧
    (Environment.processSchedulerLoop fuel env ct nt).sampleRate = env.sampleRate ∧
    (Environment.processSchedulerLoop fuel env ct nt).internalBuses = env.internalBuses ∧
    (Environment.processSchedulerLoop fuel env ct nt).externalInputBuses =
      env.externalInputBuses ∧
    (Environment.processSchedulerLoop fuel env ct nt).externalOutputBuses =
      env.externalOutputBuses := by
  intro fuel
  induction fuel with
  | zero =>
      intro env ct nt
      exact ⟨⟨[], by simp [loopEnv_zero], by simp⟩, rfl, rfl, rfl, rfl, rfl, rfl⟩
  | succ fuel ih =>
      intro env ct nt
      cases h : env.scheduler.topItem with
      | none =>
          rw [loopEnv_succ_none h]
          exact ⟨⟨[], by simp, by simp⟩, rfl, rfl, rfl, rfl, rfl, rfl⟩
      | some t =>
          by_cases hd : t.time ≤ nt
          · rw [loopEnv_succ_some h, if_pos hd]
            obtain ⟨b1, _, b3, b4, b5, b6, b7, b8⟩ :=
              processBundleB_effects t.msgs env t.reqId t.time ct
            obtain ⟨⟨tr, htr, hb⟩, i3, i4, i5, i6, i7, i8⟩ :=
              ih { Environment.processBundleB env t.reqId t.time ct t.msgs with
                scheduler :=
                  (Environment.processBundleB env t.reqId t.time ct t.msgs).scheduler.pop }
                ct nt
            refine ⟨⟨List.replicate t.msgs.length (Event.phaseB t.reqId) ++ tr, ?_, ?_⟩,
              by rw [i3]; exact b3, by rw [i4]; exact b4, by rw [i5]; exact b5,
              by rw [i6]; exact b6, by rw [i7]; exact b7, by rw [i8]; exact b8⟩
            · rw [htr]
              show (Environment.processBundleB env t.reqId t.time ct t.msgs).trace ++ tr = _
              rw [b1]
              simp [List.append_assoc]
            · intro ev hev
              rcases List.mem_append.mp hev with hev | hev
              · have := List.eq_of_mem_replicate hev
                rw [this]
                rfl
              · exact hb ev hev
          · rw [loopEnv_succ_some h, if_neg hd]
            exact ⟨⟨[], by simp, by simp⟩, rfl, rfl, rfl, rfl, rfl, rfl⟩

lemma processBundleA_effects2 (env : Environment) (reqId : Nat) (msgs : List Msg) :
    (env.processBundleA reqId msgs).1.trace =
      env.trace ++ List.replicate msgs.length (Event.phaseA reqId) ∧
    (env.processBundleA reqId msgs).1.scheduler = env.scheduler ∧
    (env.processBundleA reqId msgs).1.errLog = env.errLog ∧
    (env.processBundleA reqId msgs).1.epoch = env.epoch ∧
    (env.processBundleA reqId msgs).1.sampleRate = env.sampleRate ∧
    (env.processBundleA reqId msgs).1.internalBuses = env.internalBuses ∧
    (env.processBundleA reqId msgs).1.externalInputBuses = env.externalInputBuses ∧
    (env.processBundleA reqId msgs).1.externalOutputBuses = env.externalOutputBuses :=
  processBundleA_effects msgs env reqId false

/-- The per-request trace shape: a request contributes all of its `phaseA`
events before any of its `phaseB` events. -/
lemma processRequest1_trace_shape (env : Environment) (reqId : Nat) (r : Request)
    (ct : Methcla_Time) :
    ∃ a b, (env.processRequest1 reqId r ct).trace =
      env.trace ++ (List.replicate a (Event.phaseA reqId) ++
        List.replicate b (Event.phaseB reqId)) ∧ (0 < b → 0 < a) := by
  cases r with
  | message m =>
      obtain ⟨a1, -, -, -, -, -, -, -⟩ := processMessageA_effects env reqId m
      by_cases hn : (env.processMessageA reqId m).2 = true
      · obtain ⟨b1, -, -, -, -, -, -, -⟩ :=
          processMessageB_effects (env.processMessageA reqId m).1 reqId ct ct m
        refine ⟨1, 1, ?_, fun _ => Nat.one_pos⟩
        simp only [Environment.processRequest1]
        rw [if_pos hn, b1, a1]
        simp
      · refine ⟨1, 0, ?_, by simp⟩
        simp only [Environment.processRequest1]
        rw [if_neg hn, a1]
        simp
  | bundle rawTime msgs =>
      obtain ⟨a1, -, -, -, -, -, -, -⟩ := processBundleA_effects2 env reqId msgs
      by_cases hn : (env.processBundleA reqId msgs).2 = true
      · by_cases hraw : rawTime = 1
        · obtain ⟨b1, -, -, -, -, -, -, -⟩ :=
            processBundleB_effects msgs (env.processBundleA reqId msgs).1 reqId ct ct
          refine ⟨msgs.length, msgs.length, ?_, fun h => h⟩
          simp only [Environment.processRequest1]
          rw [if_pos hn, if_pos hraw, b1, a1]
          simp [List.append_assoc]
        · refine ⟨msgs.length, 0, ?_, by simp⟩
          simp only [Environment.processRequest1]
          rw [if_pos hn, if_neg hraw]
          cases hp : (env.processBundleA reqId msgs).1.scheduler.push
              (methcla_time_from_uint64 rawTime) reqId msgs with
          | ok s2 =>
              show (env.processBundleA reqId msgs).1.trace = _
              rw [a1]
              simp
          | error s =>
              show (env.processBundleA reqId msgs).1.trace = _
              rw [a1]
              simp
      · refine ⟨msgs.length, 0, ?_, by simp⟩
        simp only [Environment.processRequest1]
        rw [if_neg hn, a1]
        simp

/-- The ordering property claimed by C7 on a dispatch trace: every Phase A
event precedes every Phase B event (no `phaseB` before a later `phaseA`). -/
def phasesSeparated (tr : List Event) : Prop :=
  tr.Pairwise (fun x y => ¬ (x.isB = true ∧ y.isA = true))

/-- C7 counterexample: two immediate single-message requests drained in the
same block dispatch as Phase A, Phase B, Phase A, Phase B — the first
request's Phase B runs before the second request's Phase A, so Phase A of
all drained requests does not precede Phase B of all of them. -/
theorem phaseB_before_phaseA_cex :
    ((Environment.create ⟨48000, 4, 0, 0, 1⟩).processRequests
        [Request.message Msg.queryExternalInputs, Request.message Msg.queryExternalOutputs]
        0).trace =
      [Event.phaseA 0, Event.phaseB 0, Event.phaseA 1, Event.phaseB 1] ∧
    ¬ phasesSeparated ((Environment.create ⟨48000, 4, 0, 0, 1⟩).processRequests
        [Request.message Msg.queryExternalInputs, Request.message Msg.queryExternalOutputs]
        0).trace := by
  constructor
  · rfl
  · intro hsep
    rw [show ((Environment.create ⟨48000, 4, 0, 0, 1⟩).processRequests
        [Request.message Msg.queryExternalInputs, Request.message Msg.queryExternalOutputs]
        0).trace =
      [Event.phaseA 0, Event.phaseB 0, Event.phaseA 1, Event.phaseB 1] from rfl] at hsep
    rw [phasesSeparated, List.pairwise_cons] at hsep
    obtain ⟨-, hsep⟩ := hsep
    rw [List.pairwise_cons] at hsep
    obtain ⟨hB0, -⟩ := hsep
    exact hB0 (Event.phaseA 1) (by simp) ⟨rfl, rfl⟩

/-- C7 (amended claim theorem): each drained request's own Phase A events
all run before its own Phase B events (its trace extension is `phaseA*`
followed by `phaseB*`, the latter nonempty only when the former is), and
every scheduler-driven Phase B of the block runs after `processRequests`
has finished — the scheduler drain appends only `phaseB` events to the
trace left by `processRequests`.  (An immediate request's Phase B runs
directly after its own Phase A and may precede a later request's Phase A,
which is what refutes the original claim.) -/
theorem phase_order (env : Environment) (reqId : Nat) (r : Request)
    (reqs : List Request) (ct nt : Methcla_Time) :
    (∃ a b, (env.processRequest1 reqId r ct).trace =
      env.trace ++ (List.replicate a (Event.phaseA reqId) ++
        List.replicate b (Event.phaseB reqId)) ∧ (0 < b → 0 < a)) ∧
    (∃ tr, (Environment.processScheduler (env.processRequests reqs ct) ct nt).trace =
      (env.processRequests reqs ct).trace ++ tr ∧ ∀ ev ∈ tr, ev.isB = true) :=
  ⟨processRequest1_trace_shape env reqId r ct,
   (processSchedulerLoop_effects (env.processRequests reqs ct).scheduler.items.length
     (env.processRequests reqs ct) ct nt).1⟩

/-- C7 witness for the amended theorem. -/
theorem phase_order_witness :
    ∃ a b, ((Environment.create ⟨48000, 4, 0, 0, 1⟩).processRequest1 0
      (Request.message Msg.queryExternalInputs) 0).trace =
      (Environment.create ⟨48000, 4, 0, 0, 1⟩).trace ++
        (List.replicate a (Event.phaseA 0) ++ List.replicate b (Event.phaseB 0)) ∧
      (0 < b → 0 < a) :=
  (phase_order (Environment.create ⟨48000, 4, 0, 0, 1⟩) 0
    (Request.message Msg.queryExternalInputs) [] 0 0).1

/-- C9 counterexample: Phase B dispatch failures reply `/error` with the
engine's fixed sentinel `kMethcla_Notification`, not the originating
request's requestId — the requestId parse at the top of `processMessage` is
commented out in the source, so requests carry no id through dispatch, and
two failures from different originating requests yield replies with the
identical sentinel requestId. -/
theorem error_reply_sentinel_cex :
    (((Environment.create ⟨48000, 4, 0, 0, 1⟩).processMessageB 3 0 0 (Msg.nodeFree 99)).replies =
      [⟨("/error"), kMethcla_Notification, (MError.what MError.nodeIdError)⟩]) ∧
    (((Environment.create ⟨48000, 4, 0, 0, 1⟩).processMessageB 4 0 0
        (Msg.nodeSet 98 0 1)).replies =
      [⟨("/error"), kMethcla_Notification, (MError.what MError.nodeIdError)⟩]) := by
  constructor
  · rfl
  · rfl

/-- C9 (amended claim theorem): every Phase B dispatch failure — unknown
node id, wrong node type, out-of-range index, any throw from the try-block —
is caught at the dispatcher boundary: the engine sends an `/error` reply
carrying the sentinel `kMethcla_Notification` (not an originating requestId,
which the code never parses from the message) and the error text; the
failing operation is dropped (the node registry is untouched), the scheduler
and the log are untouched, and dispatch continues with the remaining
messages of the block. -/
theorem transient_error_reply (env : Environment) (reqId : Nat)
    (st ct : Methcla_Time) (m : Msg) (emsg : String)
    (herr : env.phaseBCore st ct m = Except.error emsg) :
    (env.processMessageB reqId st ct m).replies =
      env.replies ++ [⟨("/error"), kMethcla_Notification, emsg⟩] ∧
    (env.processMessageB reqId st ct m).nodes = env.nodes ∧
    (env.processMessageB reqId st ct m).scheduler = env.scheduler ∧
    (env.processMessageB reqId st ct m).errLog = env.errLog ∧
    (∀ ms, Environment.processBundleB env reqId st ct (m :: ms) =
      Environment.processBundleB (env.processMessageB reqId st ct m) reqId st ct ms) := by
  have hB : env.processMessageB reqId st ct m =
      { env.replyError kMethcla_Notification emsg with
        trace := (env.replyError kMethcla_Notification emsg).trace ++ [Event.phaseB reqId] } := by
    simp only [Environment.processMessageB, herr]
  refine ⟨?_, ?_, ?_, ?_, fun ms => rfl⟩
  · rw [hB]; rfl
  · rw [hB]; rfl
  · rw [hB]; rfl
  · rw [hB]; rfl

/-- C9 witness: the failing `/node/free 99` on a fresh environment. -/
theorem transient_error_reply_witness :
    ((Environment.create ⟨48000, 4, 0, 0, 1⟩).processMessageB 3 0 0 (Msg.nodeFree 99)).replies =
      (Environment.create ⟨48000, 4, 0, 0, 1⟩).replies ++
        [⟨("/error"), kMethcla_Notification, (MError.what MError.nodeIdError)⟩] :=
  (transient_error_reply (Environment.create ⟨48000, 4, 0, 0, 1⟩) 3 0 0
    (Msg.nodeFree 99) (MError.what MError.nodeIdError) rfl).1

/-- C3 counterexample: with the scheduler at capacity (maxSize 0), a
scheduled bundle is dropped with only a stderr log — `replies` stays empty,
so no `/error` reaches the client, contradicting the claim. -/
theorem queueOverflow_no_reply_cex :
    (({ Environment.create ⟨48000, 4, 0, 0, 1⟩ with scheduler := ⟨0, 0, []⟩ } :
        Environment).processRequest1 0 (Request.bundle 2 [Msg.nodeFree 5]) 0).replies = [] ∧
    (({ Environment.create ⟨48000, 4, 0, 0, 1⟩ with scheduler := ⟨0, 0, []⟩ } :
        Environment).processRequest1 0 (Request.bundle 2 [Msg.nodeFree 5]) 0).errLog =
      ["Scheduler queue overflow"] ∧
    (({ Environment.create ⟨48000, 4, 0, 0, 1⟩ with scheduler := ⟨0, 0, []⟩ } :
        Environment).processRequest1 0 (Request.bundle 2 [Msg.nodeFree 5]) 0).scheduler.items =
      [] := by
  refine ⟨rfl, rfl, rfl⟩

/-- C3 (amended claim theorem): when the scheduler is at capacity the next
push throws `std::runtime_error("Scheduler queue overflow")`; the enclosing
try/catch of `processRequests` prints `e.what()` to `std::cerr` (the
`errLog` of the model); no `/error` reply is produced for the overflow —
the replies are exactly those of Phase A — and the request is dropped: the
scheduler is left unchanged. -/
theorem queueOverflow_logged_not_replied (env : Environment) (reqId : Nat)
    (rawTime : Nat) (msgs : List Msg) (ct : Methcla_Time)
    (hneeds : (env.processBundleA reqId msgs).2 = true)
    (hraw : rawTime ≠ 1)
    (hfull : ¬ ((env.processBundleA reqId msgs).1.scheduler.items.length <
        (env.processBundleA reqId msgs).1.scheduler.maxSize)) :
    ((env.processBundleA reqId msgs).1.scheduler.push (methcla_time_from_uint64 rawTime)
        reqId msgs = Except.error ("Scheduler queue overflow")) ∧
    (env.processRequest1 reqId (Request.bundle rawTime msgs) ct).replies =
      (env.processBundleA reqId msgs).1.replies ∧
    (env.processRequest1 reqId (Request.bundle rawTime msgs) ct).errLog =
      (env.processBundleA reqId msgs).1.errLog ++ ["Scheduler queue overflow"] ∧
    (env.processRequest1 reqId (Request.bundle rawTime msgs) ct).scheduler =
      (env.processBundleA reqId msgs).1.scheduler := by
  have hpush : (env.processBundleA reqId msgs).1.scheduler.push
      (methcla_time_from_uint64 rawTime) reqId msgs =
      Except.error ("Scheduler queue overflow") := by
    unfold Scheduler.push
    rw [if_neg hfull]
  have hreq : env.processRequest1 reqId (Request.bundle rawTime msgs) ct =
      { (env.processBundleA reqId msgs).1 with
        errLog := (env.processBundleA reqId msgs).1.errLog ++ ["Scheduler queue overflow"] } := by
    simp only [Environment.processRequest1]
    rw [hneeds]
    simp only [if_true]
    rw [if_neg hraw, hpush]
  exact ⟨hpush, by rw [hreq], by rw [hreq], by rw [hreq]⟩

/-- C3 witness for the amended theorem. -/
theorem queueOverflow_logged_not_replied_witness :
    (({ Environment.create ⟨48000, 4, 0, 0, 1⟩ with scheduler := ⟨0, 0, []⟩ } :
        Environment).processRequest1 0 (Request.bundle 2 [Msg.nodeFree 5]) 0).errLog =
      (({ Environment.create ⟨48000, 4, 0, 0, 1⟩ with scheduler := ⟨0, 0, []⟩ } :
        Environment).processBundleA 0 [Msg.nodeFree 5]).1.errLog ++
        ["Scheduler queue overflow"] :=
  (queueOverflow_logged_not_replied
    ({ Environment.create ⟨48000, 4, 0, 0, 1⟩ with scheduler := ⟨0, 0, []⟩ })
    0 2 [Msg.nodeFree 5] 0 (by decide) (by decide) (by decide)).2.2.1

/-- A graph write addressing a bus inside the pre-allocated arrays (as every
write through a mapped connection is). -/
def GraphWrite.inRange (w : GraphWrite) (numInternal numExternal : Nat) : Prop :=
  match w.1 with
  | BusRef.internal i => i < numInternal
  | BusRef.externalOutput i => i < numExternal

instance (w : GraphWrite) (a b : Nat) : Decidable (GraphWrite.inRange w a b) := by
  unfold GraphWrite.inRange
  cases w.1 <;> infer_instance

lemma writeRule_epoch (e n : Nat) (src : List sample_t) (bus : Mescaline.AudioBus) :
    (Mescaline.AudioBus.writeRule e n src bus).epoch = e := by
  unfold Mescaline.AudioBus.writeRule
  split
  · next h => exact h
  · rfl

lemma getD_set_self {buses : List Mescaline.AudioBus} {i : Nat} (x : Mescaline.AudioBus)
    (h : i < buses.length) : (buses.set i x).getD i ⟨0, []⟩ = x := by
  simp [List.getD_eq_getElem?_getD, List.getElem?_set_self, h]

lemma getD_set_other {buses : List Mescaline.AudioBus} {i j : Nat} (x : Mescaline.AudioBus)
    (h : i ≠ j) : (buses.set j x).getD i ⟨0, []⟩ = buses.getD i ⟨0, []⟩ := by
  simp [List.getD_eq_getElem?_getD, List.getElem?_set_ne (Ne.symm h)]

lemma wireExternalInputs_length (e : Nat) : ∀ (buses : List Mescaline.AudioBus)
    (datas : List (List sample_t)),
    (wireExternalInputs e datas buses).length = buses.length := by
  intro buses
  induction buses with
  | nil => intro datas; rfl
  | cons bus rest ih =>
      intro datas
      show (wireExternalInputs e datas.tail rest).length + 1 = rest.length + 1
      rw [ih datas.tail]

lemma wireExternalInputs_epoch (e : Nat) : ∀ (buses : List Mescaline.AudioBus)
    (datas : List (List sample_t)) (i : Nat), i < buses.length →
    ((wireExternalInputs e datas buses).getD i ⟨0, []⟩).epoch = e := by
  intro buses
  induction buses with
  | nil => intro datas i h; exact absurd h (by simp)
  | cons bus rest ih =>
      intro datas i h
      cases i with
      | zero => rfl
      | succ j =>
          show ((wireExternalInputs e datas.tail rest).getD (j + 1 - 1) ⟨0, []⟩).epoch = e
          exact ih datas.tail j (by simpa using h)

lemma wireExternalOutputs_length : ∀ (buses : List Mescaline.AudioBus)
    (datas : List (List sample_t)),
    (wireExternalOutputs datas buses).length = buses.length := by
  intro buses
  induction buses with
  | nil => intro datas; rfl
  | cons bus rest ih =>
      intro datas
      show (wireExternalOutputs datas.tail rest).length + 1 = rest.length + 1
      rw [ih datas.tail]

lemma wireExternalOutputs_epoch : ∀ (buses : List Mescaline.AudioBus)
    (datas : List (List sample_t)) (i : Nat), i < buses.length →
    ((wireExternalOutputs datas buses).getD i ⟨0, []⟩).epoch =
      (buses.getD i ⟨0, []⟩).epoch := by
  intro buses
  induction buses with
  | nil => intro datas i h; exact absurd h (by simp)
  | cons bus rest ih =>
      intro datas i h
      cases i with
      | zero => rfl
      | succ j =>
          show ((wireExternalOutputs datas.tail rest).getD (j + 1 - 1) ⟨0, []⟩).epoch = _
          rw [List.getD_cons_succ]
          exact ih datas.tail j (by simpa using h)

lemma zeroUnwritten_length (e n : Nat) (buses : List Mescaline.AudioBus) :
    (zeroUnwritten e n buses).length = buses.length := by
  simp [zeroUnwritten]

lemma zeroUnwritten_epoch (e n : Nat) : ∀ (buses : List Mescaline.AudioBus) (i : Nat),
    i < buses.length →
    ((zeroUnwritten e n buses).getD i ⟨0, []⟩).epoch = (buses.getD i ⟨0, []⟩).epoch := by
  intro buses
  induction buses with
  | nil => intro i h; exact absurd h (by simp)
  | cons bus rest ih =>
      intro i h
      cases i with
      | zero =>
          simp only [zeroUnwritten, List.map_cons, List.getD_cons_zero]
          split
          · rfl
          · rfl
      | succ j =>
          simp only [zeroUnwritten, List.map_cons, List.getD_cons_succ]
          exact ih j (by simpa using h)

lemma applyGraphWrite_frame (env : Environment) (nf : Nat) (w : GraphWrite) :
    (env.applyGraphWrite nf w).epoch = env.epoch ∧
    (env.applyGraphWrite nf w).internalBuses.length = env.internalBuses.length ∧
    (env.applyGraphWrite nf w).externalOutputBuses.length =
      env.externalOutputBuses.length ∧
    (env.applyGraphWrite nf w).externalInputBuses = env.externalInputBuses := by
  cases hw : w.1 <;> simp [Environment.applyGraphWrite, hw]

lemma applyGraphWrite_internal_epoch (env : Environment) (nf : Nat) (w : GraphWrite)
    (i : Nat) (hi : i < env.internalBuses.length) :
    ((env.applyGraphWrite nf w).internalBuses.getD i ⟨0, []⟩).epoch =
      if w.1 = BusRef.internal i then env.epoch
      else (env.internalBuses.getD i ⟨0, []⟩).epoch := by
  cases hw : w.1 with
  | internal j =>
      by_cases hj : j = i
      · subst hj
        simp only [Environment.applyGraphWrite, hw, if_pos rfl]
        rw [getD_set_self _ hi]
        exact writeRule_epoch _ _ _ _
      · simp only [Environment.applyGraphWrite, hw]
        rw [if_neg (by simp [hj])]
        rw [getD_set_other _ (fun hh => hj hh.symm)]
  | externalOutput j =>
      simp only [Environment.applyGraphWrite, hw]
      rw [if_neg (by simp)]

lemma applyGraphWrite_external_epoch (env : Environment) (nf : Nat) (w : GraphWrite)
    (i : Nat) (hi : i < env.externalOutputBuses.length) :
    ((env.applyGraphWrite nf w).externalOutputBuses.getD i ⟨0, []⟩).epoch =
      if w.1 = BusRef.externalOutput i then env.epoch
      else (env.externalOutputBuses.getD i ⟨0, []⟩).epoch := by
  cases hw : w.1 with
  | externalOutput j =>
      by_cases hj : j = i
      · subst hj
        simp only [Environment.applyGraphWrite, hw, if_pos rfl]
        rw [getD_set_self _ hi]
        exact writeRule_epoch _ _ _ _
      · simp only [Environment.applyGraphWrite, hw]
        rw [if_neg (by simp [hj])]
        rw [getD_set_other _ (fun hh => hj hh.symm)]
  | internal j =>
      simp only [Environment.applyGraphWrite, hw]
      rw [if_neg (by simp)]

/-- The graph-write fold: the environment epoch, bus counts and external
inputs are untouched; a bus holds the current epoch after the fold exactly
when one of the writes addressed it, and otherwise keeps its epoch. -/
lemma foldWrites_epochs (nf : Nat) : ∀ (ws : List GraphWrite) (env : Environment),
    ((ws.foldl (fun e w => e.applyGraphWrite nf w) env).epoch = env.epoch) ∧
    ((ws.foldl (fun e w => e.applyGraphWrite nf w) env).internalBuses.length =
      env.internalBuses.length) ∧
    ((ws.foldl (fun e w => e.applyGraphWrite nf w) env).externalOutputBuses.length =
      env.externalOutputBuses.length) ∧
    ((ws.foldl (fun e w => e.applyGraphWrite nf w) env).externalInputBuses =
      env.externalInputBuses) ∧
    (∀ i, i < env.internalBuses.length →
      (((ws.foldl (fun e w => e.applyGraphWrite nf w) env).internalBuses.getD
          i ⟨0, []⟩).epoch =
        if (∃ w ∈ ws, w.1 = BusRef.internal i) then env.epoch
        else (env.internalBuses.getD i ⟨0, []⟩).epoch)) ∧
    (∀ i, i < env.externalOutputBuses.length →
      (((ws.foldl (fun e w => e.applyGraphWrite nf w) env).externalOutputBuses.getD
          i ⟨0, []⟩).epoch =
        if (∃ w ∈ ws, w.1 = BusRef.externalOutput i) then env.epoch
        else (env.externalOutputBuses.getD i ⟨0, []⟩).epoch)) := by
  intro ws
  induction ws with
  | nil =>
      intro env
      refine ⟨rfl, rfl, rfl, rfl, ?_, ?_⟩ <;> (intro i h; simp)
  | cons w rest ih =>
      intro env
      simp only [List.foldl_cons]
      obtain ⟨f1, f2, f3, f4⟩ := applyGraphWrite_frame env nf w
      obtain ⟨i1, i2, i3, i4, i5, i6⟩ := ih (env.applyGraphWrite nf w)
      refine ⟨by rw [i1, f1], by rw [i2, f2], by rw [i3, f3], by rw [i4, f4], ?_, ?_⟩
      · intro i hi
        have hi2 : i < (env.applyGraphWrite nf w).internalBuses.length := by omega
        rw [i5 i hi2, f1, applyGraphWrite_internal_epoch env nf w i hi]
        by_cases hhead : w.1 = BusRef.internal i
        · simp [List.exists_mem_cons_iff, hhead]
        · by_cases hrest : ∃ u ∈ rest, u.1 = BusRef.internal i
          · simp [List.exists_mem_cons_iff, hhead, hrest]
          · simp [List.exists_mem_cons_iff, hhead, hrest]
      · intro i hi
        have hi2 : i < (env.applyGraphWrite nf w).externalOutputBuses.length := by omega
        rw [i6 i hi2, f1, applyGraphWrite_external_epoch env nf w i hi]
        by_cases hhead : w.1 = BusRef.externalOutput i
        · simp [List.exists_mem_cons_iff, hhead]
        · by_cases hrest : ∃ u ∈ rest, u.1 = BusRef.externalOutput i
          · simp [List.exists_mem_cons_iff, hhead, hrest]
          · simp [List.exists_mem_cons_iff, hhead, hrest]

/-- One drained request leaves epoch, rate and buses alone. -/
lemma processRequest1_frame (env : Environment) (reqId : Nat) (r : Request)
    (ct : Methcla_Time) :
    (env.processRequest1 reqId r ct).epoch = env.epoch ∧
    (env.processRequest1 reqId r ct).sampleRate = env.sampleRate ∧
    (env.processRequest1 reqId r ct).internalBuses = env.internalBuses ∧
    (env.processRequest1 reqId r ct).externalInputBuses = env.externalInputBuses ∧
    (env.processRequest1 reqId r ct).externalOutputBuses = env.externalOutputBuses := by
  cases r with
  | message m =>
      obtain ⟨-, -, -, a4, a5, a6, a7, a8⟩ := processMessageA_effects env reqId m
      by_cases hn : (env.processMessageA reqId m).2 = true
      · obtain ⟨-, -, -, b4, b5, b6, b7, b8⟩ :=
          processMessageB_effects (env.processMessageA reqId m).1 reqId ct ct m
        simp only [Environment.processRequest1]
        rw [if_pos hn]
        exact ⟨by rw [b4, a4], by rw [b5, a5], by rw [b6, a6], by rw [b7, a7], by rw [b8, a8]⟩
      · simp only [Environment.processRequest1]
        rw [if_neg hn]
        exact ⟨a4, a5, a6, a7, a8⟩
  | bundle rawTime msgs =>
      obtain ⟨-, -, -, a4, a5, a6, a7, a8⟩ := processBundleA_effects2 env reqId msgs
      by_cases hn : (env.processBundleA reqId msgs).2 = true
      · by_cases hraw : rawTime = 1
        · obtain ⟨-, -, -, b4, b5, b6, b7, b8⟩ :=
            processBundleB_effects msgs (env.processBundleA reqId msgs).1 reqId ct ct
          simp only [Environment.processRequest1]
          rw [if_pos hn, if_pos hraw]
          exact ⟨by rw [b4, a4], by rw [b5, a5], by rw [b6, a6], by rw [b7, a7],
            by rw [b8, a8]⟩
        · simp only [Environment.processRequest1]
          rw [if_pos hn, if_neg hraw]
          cases hp : (env.processBundleA reqId msgs).1.scheduler.push
              (methcla_time_from_uint64 rawTime) reqId msgs with
          | ok s2 => exact ⟨a4, a5, a6, a7, a8⟩
          | error s => exact ⟨a4, a5, a6, a7, a8⟩
      · simp only [Environment.processRequest1]
        rw [if_neg hn]
        exact ⟨a4, a5, a6, a7, a8⟩

/-- The whole request drain leaves epoch, rate and buses alone. -/
lemma processRequests_frame (env : Environment) (reqs : List Request) (ct : Methcla_Time) :
    (env.processRequests reqs ct).epoch = env.epoch ∧
    (env.processRequests reqs ct).sampleRate = env.sampleRate ∧
    (env.processRequests reqs ct).internalBuses = env.internalBuses ∧
    (env.processRequests reqs ct).externalInputBuses = env.externalInputBuses ∧
    (env.processRequests reqs ct).externalOutputBuses = env.externalOutputBuses := by
  suffices h : ∀ (l : List (Nat × Request)) (e : Environment),
      ((l.foldl (fun e p => e.processRequest1 p.1 p.2 ct) e).epoch = e.epoch ∧
       (l.foldl (fun e p => e.processRequest1 p.1 p.2 ct) e).sampleRate = e.sampleRate ∧
       (l.foldl (fun e p => e.processRequest1 p.1 p.2 ct) e).internalBuses = e.internalBuses ∧
       (l.foldl (fun e p => e.processRequest1 p.1 p.2 ct) e).externalInputBuses =
         e.externalInputBuses ∧
       (l.foldl (fun e p => e.processRequest1 p.1 p.2 ct) e).externalOutputBuses =
         e.externalOutputBuses) by
    exact h reqs.enum env
  intro l
  induction l with
  | nil => intro e; exact ⟨rfl, rfl, rfl, rfl, rfl⟩
  | cons p ps ih =>
      intro e
      simp only [List.foldl_cons]
      obtain ⟨f1, f2, f3, f4, f5⟩ := processRequest1_frame e p.1 p.2 ct
      obtain ⟨i1, i2, i3, i4, i5⟩ := ih (e.processRequest1 p.1 p.2 ct)
      exact ⟨by rw [i1, f1], by rw [i2, f2], by rw [i3, f3], by rw [i4, f4], by rw [i5, f5]⟩

/-- The scheduler drain stage leaves epoch, rate and buses alone. -/
lemma processScheduler_frame (env : Environment) (ct nt : Methcla_Time) :
    (env.processScheduler ct nt).epoch = env.epoch ∧
    (env.processScheduler ct nt).sampleRate = env.sampleRate ∧
    (env.processScheduler ct nt).internalBuses = env.internalBuses ∧
    (env.processScheduler ct nt).externalInputBuses = env.externalInputBuses ∧
    (env.processScheduler ct nt).externalOutputBuses = env.externalOutputBuses := by
  obtain ⟨-, -, h3, h4, h5, h6, h7⟩ :=
    processSchedulerLoop_effects env.scheduler.items.length env ct nt
  exact ⟨h3, h4, h5, h6, h7⟩

/-- The bus-wiring stage: internal buses untouched; external inputs stamped
with the current epoch; external output epochs preserved. -/
lemma wireBuses_epochs (env : Environment) (b : BlockInput) :
    (env.wireBuses b).epoch = env.epoch ∧
    (env.wireBuses b).internalBuses = env.internalBuses ∧
    (env.wireBuses b).externalInputBuses.length = env.externalInputBuses.length ∧
    (env.wireBuses b).externalOutputBuses.length = env.externalOutputBuses.length ∧
    (∀ i, i < env.externalInputBuses.length →
      ((env.wireBuses b).externalInputBuses.getD i ⟨0, []⟩).epoch = env.epoch) ∧
    (∀ i, i < env.externalOutputBuses.length →
      ((env.wireBuses b).externalOutputBuses.getD i ⟨0, []⟩).epoch =
        (env.externalOutputBuses.getD i ⟨0, []⟩).epoch) := by
  refine ⟨rfl, rfl, wireExternalInputs_length _ _ _, wireExternalOutputs_length _ _, ?_, ?_⟩
  · intro i hi
    exact wireExternalInputs_epoch env.epoch env.externalInputBuses b.extInputs i hi
  · intro i hi
    exact wireExternalOutputs_epoch env.externalOutputBuses b.extOutputsIn i hi

/-- The graph stage (wrapper of `foldWrites_epochs`). -/
lemma runGraph_epochs (env : Environment) (b : BlockInput) :
    (env.runGraph b).epoch = env.epoch ∧
    (env.runGraph b).internalBuses.length = env.internalBuses.length ∧
    (env.runGraph b).externalOutputBuses.length = env.externalOutputBuses.length ∧
    (env.runGraph b).externalInputBuses = env.externalInputBuses ∧
    (∀ i, i < env.internalBuses.length →
      ((env.runGraph b).internalBuses.getD i ⟨0, []⟩).epoch =
        if (∃ w ∈ b.graphWrites, w.1 = BusRef.internal i) then env.epoch
        else (env.internalBuses.getD i ⟨0, []⟩).epoch) ∧
    (∀ i, i < env.externalOutputBuses.length →
      ((env.runGraph b).externalOutputBuses.getD i ⟨0, []⟩).epoch =
        if (∃ w ∈ b.graphWrites, w.1 = BusRef.externalOutput i) then env.epoch
        else (env.externalOutputBuses.getD i ⟨0, []⟩).epoch) :=
  foldWrites_epochs b.numFrames b.graphWrites env

/-- The output-zeroing stage changes no epoch and no length. -/
lemma zeroOutputs_epochs (env : Environment) (n : Nat) :
    (env.zeroOutputs n).epoch = env.epoch ∧
    (env.zeroOutputs n).internalBuses = env.internalBuses ∧
    (env.zeroOutputs n).externalInputBuses = env.externalInputBuses ∧
    (env.zeroOutputs n).externalOutputBuses.length = env.externalOutputBuses.length ∧
    (∀ i, i < env.externalOutputBuses.length →
      ((env.zeroOutputs n).externalOutputBuses.getD i ⟨0, []⟩).epoch =
        (env.externalOutputBuses.getD i ⟨0, []⟩).epoch) := by
  refine ⟨rfl, rfl, rfl, zeroUnwritten_length _ _ _, ?_⟩
  intro i hi
  exact zeroUnwritten_epoch env.epoch n env.externalOutputBuses i hi

lemma processMid_def (env : Environment) (b : BlockInput) :
    env.processMid b =
      ((((env.processRequests b.reqs b.currentTime).processScheduler b.currentTime
          (b.currentTime + (b.numFrames : ℚ) /
            (env.processRequests b.reqs b.currentTime).sampleRate)).wireBuses b).runGraph
        b).zeroOutputs b.numFrames := rfl

/-- The whole block body before the epoch increment: the epoch itself and
the bus counts are preserved; an internal or external output bus ends the
block holding the current epoch exactly when a graph write addressed it;
every external input bus ends the block holding the current epoch. -/
lemma processMid_epochs (env : Environment) (b : BlockInput) :
    (env.processMid b).epoch = env.epoch ∧
    (env.processMid b).internalBuses.length = env.internalBuses.length ∧
    (env.processMid b).externalInputBuses.length = env.externalInputBuses.length ∧
    (env.processMid b).externalOutputBuses.length = env.externalOutputBuses.length ∧
    (∀ i, i < env.internalBuses.length →
      ((env.processMid b).internalBuses.getD i ⟨0, []⟩).epoch =
        if (∃ w ∈ b.graphWrites, w.1 = BusRef.internal i) then env.epoch
        else (env.internalBuses.getD i ⟨0, []⟩).epoch) ∧
    (∀ i, i < env.externalOutputBuses.length →
      ((env.processMid b).externalOutputBuses.getD i ⟨0, []⟩).epoch =
        if (∃ w ∈ b.graphWrites, w.1 = BusRef.externalOutput i) then env.epoch
        else (env.externalOutputBuses.getD i ⟨0, []⟩).epoch) ∧
    (∀ i, i < env.externalInputBuses.length →
      ((env.processMid b).externalInputBuses.getD i ⟨0, []⟩).epoch = env.epoch) := by
  obtain ⟨r1, r2, r3, r4, r5⟩ := processRequests_frame env b.reqs b.currentTime
  obtain ⟨s1, s2, s3, s4, s5⟩ := processScheduler_frame
    (env.processRequests b.reqs b.currentTime) b.currentTime
    (b.currentTime + (b.numFrames : ℚ) /
      (env.processRequests b.reqs b.currentTime).sampleRate)
  set E2 := (env.processRequests b.reqs b.currentTime).processScheduler b.currentTime
    (b.currentTime + (b.numFrames : ℚ) /
      (env.processRequests b.reqs b.currentTime).sampleRate) with hE2
  have hep : E2.epoch = env.epoch := by rw [s1, r1]
  have hib : E2.internalBuses = env.internalBuses := by rw [s3, r3]
  have hei : E2.externalInputBuses = env.externalInputBuses := by rw [s4, r4]
  have heo : E2.externalOutputBuses = env.externalOutputBuses := by rw [s5, r5]
  obtain ⟨w1, w2, w3, w4, w5, w6⟩ := wireBuses_epochs E2 b
  obtain ⟨g1, g2, g3, g4, g5, g6⟩ := runGraph_epochs (E2.wireBuses b) b
  obtain ⟨z1, z2, z3, z4, z5⟩ := zeroOutputs_epochs ((E2.wireBuses b).runGraph b) b.numFrames
  rw [processMid_def]
  refine ⟨?_, ?_, ?_, ?_, ?_, ?_, ?_⟩
  · rw [z1, g1, w1, hep]
  · rw [z2, g2, w2, hib]
  · rw [z3, g4]
    rw [show (E2.wireBuses b).externalInputBuses.length = env.externalInputBuses.length by
      rw [w3, hei]]
  · rw [z4, g3, w4, heo]
  · intro i hi
    have hi3 : i < (E2.wireBuses b).internalBuses.length := by rw [w2, hib]; exact hi
    rw [z2, g5 i hi3, w1, hep, w2, hib]
  · intro i hi
    have hiE : i < E2.externalOutputBuses.length := by rw [heo]; exact hi
    have hi3 : i < (E2.wireBuses b).externalOutputBuses.length := by rw [w4]; exact hiE
    have hi4 : i < ((E2.wireBuses b).runGraph b).externalOutputBuses.length := by
      rw [g3]; exact hi3
    rw [z5 i hi4, g6 i hi3, w1, hep, w6 i hiE, heo]
  · intro i hi
    have hiE : i < E2.externalInputBuses.length := by rw [hei]; exact hi
    rw [z3, g4, w5 i hiE, hep]

/-- A bus epoch is either the underflowed initial value `2^64 - 1` or
strictly below the environment epoch. -/
def busEpochOK (n : Nat) (bus : Mescaline.AudioBus) : Prop :=
  bus.epoch = epochModulus - 1 ∨ bus.epoch < n

/-- The reachable-state epoch invariant after `n` processed blocks. -/
def EpochInv (opts : Options) (env : Environment) (n : Nat) : Prop :=
  env.epoch = n ∧
  env.internalBuses.length = opts.maxNumAudioBuses ∧
  env.externalInputBuses.length = opts.numHardwareInputChannels ∧
  env.externalOutputBuses.length = opts.numHardwareOutputChannels ∧
  (∀ i, i < env.internalBuses.length →
    busEpochOK n (env.internalBuses.getD i ⟨0, []⟩)) ∧
  (∀ i, i < env.externalInputBuses.length →
    busEpochOK n (env.externalInputBuses.getD i ⟨0, []⟩)) ∧
  (∀ i, i < env.externalOutputBuses.length →
    busEpochOK n (env.externalOutputBuses.getD i ⟨0, []⟩))

lemma epochSub1_zero : epochSub1 0 = epochModulus - 1 := by
  unfold epochSub1
  rw [Nat.zero_add]
  exact Nat.mod_eq_of_lt (by norm_num [epochModulus])

lemma create_inv (opts : Options) : EpochInv opts (Environment.create opts) 0 := by
  refine ⟨rfl, by simp [Environment.create], by simp [Environment.create],
    by simp [Environment.create], ?_, ?_, ?_⟩ <;>
  · intro i hi
    left
    simp only [Environment.create, List.length_replicate] at hi ⊢
    simp [List.getD_eq_getElem?_getD, List.getElem?_replicate, hi, epochSub1_zero]

lemma process_inv (opts : Options) (env : Environment) (n : Nat) (b : BlockInput)
    (hn : n + 1 < epochModulus) (hinv : EpochInv opts env n) :
    EpochInv opts (env.process b) (n + 1) := by
  obtain ⟨h1, h2, h3, h4, h5, h6, h7⟩ := hinv
  obtain ⟨m1, m2, m3, m4, m5, m6, m7⟩ := processMid_epochs env b
  refine ⟨?_, ?_, ?_, ?_, ?_, ?_, ?_⟩
  · show epochAdd1 (env.processMid b).epoch = n + 1
    rw [m1, h1]
    unfold epochAdd1
    exact Nat.mod_eq_of_lt hn
  · show (env.processMid b).internalBuses.length = _
    rw [m2, h2]
  · show (env.processMid b).externalInputBuses.length = _
    rw [m3, h3]
  · show (env.processMid b).externalOutputBuses.length = _
    rw [m4, h4]
  · intro i hi
    have hi2 : i < env.internalBuses.length := by
      have : i < (env.processMid b).internalBuses.length := hi
      omega
    show busEpochOK (n + 1) ((env.processMid b).internalBuses.getD i ⟨0, []⟩)
    unfold busEpochOK
    rw [m5 i hi2, h1]
    by_cases hx : ∃ w ∈ b.graphWrites, w.1 = BusRef.internal i
    · rw [if_pos hx]
      right
      omega
    · rw [if_neg hx]
      rcases h5 i hi2 with hc | hc
      · left; exact hc
      · right; omega
  · intro i hi
    have hi2 : i < env.externalInputBuses.length := by
      have : i < (env.processMid b).externalInputBuses.length := hi
      omega
    show busEpochOK (n + 1) ((env.processMid b).externalInputBuses.getD i ⟨0, []⟩)
    unfold busEpochOK
    rw [m7 i hi2, h1]
    right
    omega
  · intro i hi
    have hi2 : i < env.externalOutputBuses.length := by
      have : i < (env.processMid b).externalOutputBuses.length := hi
      omega
    show busEpochOK (n + 1) ((env.processMid b).externalOutputBuses.getD i ⟨0, []⟩)
    unfold busEpochOK
    rw [m6 i hi2, h1]
    by_cases hx : ∃ w ∈ b.graphWrites, w.1 = BusRef.externalOutput i
    · rw [if_pos hx]
      right
      omega
    · rw [if_neg hx]
      rcases h7 i hi2 with hc | hc
      · left; exact hc
      · right; omega

lemma runBlocks_inv : ∀ (bs : List BlockInput) (opts : Options) (env : Environment) (n : Nat),
    EpochInv opts env n → n + bs.length < epochModulus →
    EpochInv opts (env.runBlocks bs) (n + bs.length) := by
  intro bs
  induction bs with
  | nil =>
      intro opts env n h _
      simpa [Environment.runBlocks] using h
  | cons b rest ih =>
      intro opts env n h hlt
      have hlt2 : n + 1 < epochModulus := by
        simp only [List.length_cons] at hlt
        omega
      have h1 : EpochInv opts (env.process b) (n + 1) := process_inv opts env n b hlt2 h
      have h2 := ih opts (env.process b) (n + 1) h1
        (by simp only [List.length_cons] at hlt; omega)
      have harith : n + 1 + rest.length = n + (rest.length + 1) := by omega
      rw [harith] at h2
      exact h2

/-- C4 counterexample: at construction every audio bus carries epoch
`epoch() - 1 = 2^64 - 1` (unsigned underflow at epoch 0), which is neither
equal to nor strictly less than the environment epoch 0. -/
theorem bus_epoch_exceeds_env_epoch_cex :
    ¬ (((Environment.create ⟨48000, 4, 1, 2, 1⟩).internalBuses.getD 0 ⟨0, []⟩).epoch =
        (Environment.create ⟨48000, 4, 1, 2, 1⟩).epoch ∨
       ((Environment.create ⟨48000, 4, 1, 2, 1⟩).internalBuses.getD 0 ⟨0, []⟩).epoch <
        (Environment.create ⟨48000, 4, 1, 2, 1⟩).epoch) ∧
    ((Environment.create ⟨48000, 4, 1, 2, 1⟩).internalBuses.getD 0 ⟨0, []⟩).epoch =
      2 ^ 64 - 1 := by
  constructor
  · decide
  · decide

/-- C4 (amended claim theorem): the environment epoch advances by exactly
one (mod `2^64`) per processed block and equals the number of blocks
processed since construction; during any reachable block (fewer than
`2^64 - 1` blocks in), an internal or external output bus carries the
current epoch iff a graph write addressed it this block, and every external
input bus carries the current epoch (rewired by the driver each block).
Contrary to the original claim, a bus epoch is not always equal to or less
than the environment epoch: buses are constructed with
`prevEpoch = epoch() - 1`, which underflows to `2^64 - 1 > 0`. -/
theorem epoch_advance_and_written_iff (opts : Options) (bs : List BlockInput)
    (b : BlockInput) (hlen : bs.length + 1 < epochModulus) :
    (∀ (env2 : Environment) (b2 : BlockInput),
      (env2.process b2).epoch = epochAdd1 env2.epoch) ∧
    ((Environment.create opts).runBlocks bs).epoch = bs.length ∧
    (∀ i, i < opts.maxNumAudioBuses →
      (((((Environment.create opts).runBlocks bs).processMid b).internalBuses.getD i
          ⟨0, []⟩).epoch =
          (((Environment.create opts).runBlocks bs).processMid b).epoch ↔
        ∃ w ∈ b.graphWrites, w.1 = BusRef.internal i)) ∧
    (∀ i, i < opts.numHardwareOutputChannels →
      (((((Environment.create opts).runBlocks bs).processMid b).externalOutputBuses.getD i
          ⟨0, []⟩).epoch =
          (((Environment.create opts).runBlocks bs).processMid b).epoch ↔
        ∃ w ∈ b.graphWrites, w.1 = BusRef.externalOutput i)) ∧
    (∀ i, i < opts.numHardwareInputChannels →
      ((((Environment.create opts).runBlocks bs).processMid b).externalInputBuses.getD i
          ⟨0, []⟩).epoch =
        (((Environment.create opts).runBlocks bs).processMid b).epoch) := by
  have hinv : EpochInv opts ((Environment.create opts).runBlocks bs) bs.length := by
    have := runBlocks_inv bs opts (Environment.create opts) 0 (create_inv opts) (by omega)
    simpa using this
  obtain ⟨h1, h2, h3, h4, h5, h6, h7⟩ := hinv
  obtain ⟨m1, m2, m3, m4, m5, m6, m7⟩ :=
    processMid_epochs ((Environment.create opts).runBlocks bs) b
  refine ⟨?_, h1, ?_, ?_, ?_⟩
  · intro env2 b2
    show epochAdd1 (env2.processMid b2).epoch = _
    rw [(processMid_epochs env2 b2).1]
  · intro i hi
    have hi2 : i < ((Environment.create opts).runBlocks bs).internalBuses.length := by
      rw [h2]; exact hi
    rw [m5 i hi2, m1, h1]
    by_cases hx : ∃ w ∈ b.graphWrites, w.1 = BusRef.internal i
    · rw [if_pos hx]
      exact ⟨fun _ => hx, fun _ => rfl⟩
    · rw [if_neg hx]
      constructor
      · intro hc
        exfalso
        rcases h5 i hi2 with hd | hd
        · rw [hc] at hd
          omega
        · omega
      · intro hx2
        exact absurd hx2 hx
  · intro i hi
    have hi2 : i < ((Environment.create opts).runBlocks bs).externalOutputBuses.length := by
      rw [h4]; exact hi
    rw [m6 i hi2, m1, h1]
    by_cases hx : ∃ w ∈ b.graphWrites, w.1 = BusRef.externalOutput i
    · rw [if_pos hx]
      exact ⟨fun _ => hx, fun _ => rfl⟩
    · rw [if_neg hx]
      constructor
      · intro hc
        exfalso
        rcases h7 i hi2 with hd | hd
        · rw [hc] at hd
          omega
        · omega
      · intro hx2
        exact absurd hx2 hx
  · intro i hi
    have hi2 : i < ((Environment.create opts).runBlocks bs).externalInputBuses.length := by
      rw [h3]; exact hi
    rw [m7 i hi2, m1, h1]

/-- C4 witness for the amended theorem. -/
theorem epoch_advance_and_written_iff_witness :
    ((Environment.create ⟨48000, 4, 1, 1, 1⟩).runBlocks []).epoch =
      ([] : List BlockInput).length :=
  (epoch_advance_and_written_iff ⟨48000, 4, 1, 1, 1⟩ []
    ⟨[], [], [], [(BusRef.internal 0, [1])], 0, 4⟩
    (by norm_num [epochModulus])).2.1

/-- C10 witness: creating group 7 under the root group (id 0) with
`addAction = 5` lands it at the tail of the root's children. -/
theorem addAction_ignored_witness :
    ((Environment.create ⟨48000, 4, 0, 0, 1⟩).processMessageA 0
        (Msg.groupNew 7 0 5)).1.lookupNode (resolveTargetGroup 0 ⟨none, NodePayload.group []⟩) =
      some { parent := none, payload := NodePayload.group ([] ++ [7]) } ∧
    ((Environment.create ⟨48000, 4, 0, 0, 1⟩).processMessageA 0
        (Msg.groupNew 7 0 5)).1.lookupNode 7 =
      some ⟨some (resolveTargetGroup 0 ⟨none, NodePayload.group []⟩), NodePayload.group []⟩ :=
  (addAction_ignored (Environment.create ⟨48000, 4, 0, 0, 1⟩) 0 7 0
    ⟨none, NodePayload.group []⟩ ⟨none, NodePayload.group []⟩ []
    (by decide) (by decide) (by decide) (by decide)).2.2.1 5

end Methcla
